import Mathlib

/-!
# UlricQin/orm: query rendering and the tag registry

A shallow embedding of `src/repo.go`, `src/orm.go` and `src/utils.go`.

Modelling conventions.
* A Go `string` is a Lean `String`.  Every string operation embedded here
  (concatenation, comparison with `""`, a left-to-right scan testing for the
  ASCII bytes `a`..`z` and `_`) commutes with UTF-8 encoding, so the model is
  exact on valid UTF-8 text.
* A Go `int` is a Lean `Int`; the embedded code only compares it with `0`.
* A Go `interface{}` argument is a `Value`.
* A Go `map[string]T` that is only indexed is a `GoMap T` (association list with
  unique keys); the attribute map `G`, which is only ranged over, is the list
  of its entries in the order the `range` loop visits them.
* The database handle, the logger and the driver are external collaborators:
  the driver is a parameter `exec` of the terminal operations.
* The scan engine works through `reflect`.  A destination field is a
  `FieldValue` (its static type, its content and whether it is exported), a
  record is the list of its fields, and a `reflect` call that panics makes the
  result `Res.panic`; stores and `Interface()` panic on an unexported field.
  A field written `{ typ := t, val := v }` is exported.  Named types are
  identified with their underlying type, except structs, which are told apart
  by name.  `int` and `uint` are 64 bits wide.
* User-defined `sql.Scanner` implementations are a parameter `scanners`.
-/

namespace OrmModel

/-! ## Data model -/

/-- A `float64`, carried as its IEEE-754 bit pattern: the code only moves it. -/
structure F64 where
  bits : Nat
  deriving DecidableEq, Repr

/-- A `time.Time`, carried as the nanoseconds since the zero time: the code only
moves it. -/
structure Time where
  instant : Int
  deriving DecidableEq, Repr

/-- Dynamic values carried by `interface{}`: statement arguments, and the opaque
values a generic scan leaves in its containers (`nil` is the absent value). -/
inductive Value where
  | nil
  | bool (b : Bool)
  | int (n : Int)
  | int64 (n : Int)
  | str (s : String)
  | bytes (b : List Nat)
  | uint64 (n : Nat)
  | float64 (x : F64)
  | time (t : Time)
  deriving DecidableEq, Repr

/-- Go `map[string]T` as an association list; `set` keeps keys unique. -/
abbrev GoMap (β : Type) := List (String × β)

/-- Map index expression `m[k]` in its two-result form `v, has := m[k]`. -/
def GoMap.get? {β : Type} : GoMap β → String → Option β
  | [], _ => none
  | (k', v) :: rest, k => if k' = k then some v else GoMap.get? rest k

/-- Map assignment `m[k] = v`. -/
def GoMap.set {β : Type} (m : GoMap β) (k : String) (v : β) : GoMap β :=
  (k, v) :: m.filter (fun e => e.1 != k)

/-- Type `G` (`map[string]interface{}`), as the entries a `range` loop visits, in
visiting order. -/
abbrev G := List (String × Value)

/-- Struct `Repo` of `repo.go` (fields `o` and `db`, the registry and the
database handle, are external and left out). -/
structure Repo where
  tbl : String
  where_ : String
  args : List Value
  orderBy : String
  limit : Int
  offset : Int
  showSQL : Bool
  cols : String
  sql : String
  deriving DecidableEq, Repr

/-! ## Query builder -/

/-- Method `Repo.Where`. -/
def Repo.Where (r : Repo) (w : String) (args : List Value) : Repo :=
  { r with where_ := w, args := args }

/-- Method `Repo.OrderBy`. -/
def Repo.OrderBy (r : Repo) (by_ : String) : Repo :=
  { r with orderBy := by_ }

/-- Method `Repo.Limit` (variadic `offset`: only its first element is used). -/
def Repo.Limit (r : Repo) (limit : Int) (offset : List Int) : Repo :=
  let r := { r with limit := limit }
  match offset with
  | [] => r
  | o :: _ => { r with offset := o }

/-- Method `Repo.Cols`. -/
def Repo.Cols (r : Repo) (cols : String) : Repo :=
  { r with cols := cols }

/-- Method `Repo.buildSQL` (repo.go 103-136): `buf` is the byte buffer, each
`let` is one statement of the source. -/
def Repo.buildSQL (r : Repo) : Repo :=
  let r := if r.cols = "" then { r with cols := "*" } else r
  let buf := ""
  let buf := buf ++ "SELECT "
  let buf := buf ++ r.cols
  let buf := buf ++ " FROM `"
  let buf := buf ++ r.tbl
  let buf := buf ++ "`"
  let buf := if r.where_ ≠ "" then (buf ++ " WHERE ") ++ r.where_ else buf
  let buf := if r.orderBy ≠ "" then (buf ++ " ORDER BY ") ++ r.orderBy else buf
  let (buf, r) :=
    if r.limit > 0 then (buf ++ " LIMIT ?", { r with args := r.args ++ [Value.int r.limit] })
    else (buf, r)
  let (buf, r) :=
    if r.offset > 0 then (buf ++ " OFFSET ?", { r with args := r.args ++ [Value.int r.offset] })
    else (buf, r)
  { r with sql := buf }

/-- Function `NewRepo` of `orm.go`, restricted to the fields kept in `Repo`. -/
def NewRepo (showSQL : Bool) (tbl : String) : Repo :=
  { tbl := tbl, where_ := "", args := [], orderBy := "", limit := 0, offset := 0,
    showSQL := showSQL, cols := "", sql := "" }

/-! ## Driver interface -/

/-- Interface `sql.Result`: both accessors may fail. -/
structure SqlResult where
  LastInsertId : Except String Int
  RowsAffected : Except String Int

/-- The driver call behind `Repo.exec`: statement text and positional arguments
in, result or error out. -/
abbrev Exec := String → List Value → Except String SqlResult

/-- Function `strings.Join`. -/
def Join : List String → String → String
  | [], _ => ""
  | [a], _ => a
  | a :: b :: rest, sep => a ++ sep ++ Join (b :: rest) sep

/-! ## Terminal write operations -/

/-- The `range attrs` loop of `Repo.Insert` (repo.go 152-156); the accumulators
are the slices `keys`, `qms` and `vals`. -/
def Repo.insertLoop : G → List String → List String → List Value →
    List String × List String × List Value
  | [], keys, qms, vals => (keys, qms, vals)
  | (k, v) :: rest, keys, qms, vals =>
    Repo.insertLoop rest (keys ++ ["`" ++ k ++ "`"]) (qms ++ ["?"]) (vals ++ [v])

/-- Lines 148-163 of `Repo.Insert`: the statement `s` and the slice `vals` that
are passed to `r.exec`. -/
def Repo.insertStmt (r : Repo) (attrs : G) : String × List Value :=
  let (keys, qms, vals) := Repo.insertLoop attrs [] [] []
  let s := "INSERT INTO `" ++ r.tbl ++ "`(" ++ Join keys "," ++ ") VALUES(" ++ Join qms "," ++ ")"
  (s, vals)

/-- Method `Repo.Insert`. -/
def Repo.Insert (exec : Exec) (r : Repo) (attrs : G) : Except String Int :=
  let (s, vals) := r.insertStmt attrs
  match exec s vals with
  | .error err => .error err
  | .ok ret => ret.LastInsertId

/-- Lines 175-183 of `Repo.Delete`: the statement `s` and the receiver after the
append to `r.args`; `r.exec` is called with `s` and that `r.args`. -/
def Repo.deleteStmt (r : Repo) : String × Repo :=
  let s := "DELETE FROM `" ++ r.tbl ++ "`"
  let s := if r.where_ ≠ "" then s ++ (" WHERE " ++ r.where_) else s
  let (s, r) :=
    if r.limit > 0 then (s ++ " LIMIT ?", { r with args := r.args ++ [Value.int r.limit] })
    else (s, r)
  (s, r)

/-- Method `Repo.Delete`; the receiver is returned because it is mutated. -/
def Repo.Delete (exec : Exec) (r : Repo) : Repo × Except String Int :=
  let (s, r) := r.deleteStmt
  match exec s r.args with
  | .error err => (r, .error err)
  | .ok ret => (r, ret.RowsAffected)

/-- The `range attrs` loop of `Repo.Update` (repo.go 198-201). -/
def Repo.updateLoop : G → List String → List Value → List String × List Value
  | [], keys, vals => (keys, vals)
  | (k, v) :: rest, keys, vals =>
    Repo.updateLoop rest (keys ++ ["`" ++ k ++ "`=?"]) (vals ++ [v])

/-- Lines 195-211 of `Repo.Update`: the statement `s` and the slice `vals` that
are passed to `r.exec`. -/
def Repo.updateStmt (r : Repo) (attrs : G) : String × List Value :=
  let (keys, vals) := Repo.updateLoop attrs [] []
  let s := "UPDATE `" ++ r.tbl ++ "` SET " ++ Join keys ","
  let (s, vals) :=
    if r.where_ ≠ "" then (s ++ (" WHERE " ++ r.where_), vals ++ r.args) else (s, vals)
  let vals := if r.limit > 0 then vals ++ [Value.int r.limit] else vals
  (s, vals)

/-- Method `Repo.Update`. -/
def Repo.Update (exec : Exec) (r : Repo) (attrs : G) : Except String Int :=
  let (s, vals) := r.updateStmt attrs
  match exec s vals with
  | .error err => .error err
  | .ok ret => ret.RowsAffected

/-! ## Naming fallback and registry -/

/-- The loop of `snakeToUpperCamel` (utils.go 8-19): remaining input, the flag
`first`, the buffer. -/
def snakeToUpperCamelLoop : List Char → Bool → List Char → List Char
  | [], _, buf => buf
  | c :: cs, first, buf =>
    if c ≥ 'a' ∧ c ≤ 'z' ∧ first = true then
      snakeToUpperCamelLoop cs false (buf ++ [Char.ofNat (c.toNat - 32)])
    else if c = '_' then
      snakeToUpperCamelLoop cs true buf
    else
      snakeToUpperCamelLoop cs first (buf ++ [c])

/-- Function `snakeToUpperCamel` of `utils.go`. -/
def snakeToUpperCamel (s : String) : String :=
  String.mk (snakeToUpperCamelLoop s.data true [])

/-- What `reflect` exposes of one struct field: `Name` is `field.Name`, `Tag` is
`field.Tag.Get("orm")`. -/
structure StructField where
  Name : String
  Tag : String
  deriving DecidableEq, Repr

/-- What `reflect` exposes of a prototype `vs[i]` (a pointer to a struct):
`typ` is `reflect.TypeOf(vs[i]).String()`, `fields` are
`typ.Elem().Field(0)`, ..., `typ.Elem().Field(NumField()-1)`. -/
structure Prototype where
  typ : String
  fields : List StructField
  deriving DecidableEq, Repr

/-- Struct `Orm` of `orm.go` (the handle table `dbs` is external and left out). -/
structure Orm where
  mappings : GoMap (GoMap String)
  ShowSQL : Bool
  deriving DecidableEq, Repr

/-- Function `New`. -/
def New : Orm :=
  { mappings := [], ShowSQL := true }

/-- The inner loop of `Register` (orm.go 48-54) over the fields `j = 0..num-1`,
threading the map `fields`. -/
def registerFields : List StructField → GoMap String → GoMap String
  | [], fields => fields
  | field :: rest, fields =>
    let tag := field.Tag
    registerFields rest (if tag ≠ "" then fields.set tag field.Name else fields)

/-- Method `Orm.Register`: the outer loop over `vs`. -/
def Orm.Register (o : Orm) : List Prototype → Orm
  | [] => o
  | v :: vs =>
    let fields := registerFields v.fields []
    Orm.Register { o with mappings := o.mappings.set v.typ fields } vs

/-- Method `Orm.Tag2field`. -/
def Orm.Tag2field (o : Orm) (typ : String) (key : String) : String :=
  match o.mappings.get? typ with
  | none => snakeToUpperCamel key
  | some m =>
    match m.get? key with
    | none => snakeToUpperCamel key
    | some val => val

/-! ## Identifier lists: `I64s` and `I64Arr` -/

/-- Function `strings.Split` for a one-character separator, on the characters of
the text: the pieces between the separators, `n + 1` of them for `n`
separators (one empty piece for the empty text). -/
def splitChars (sep : Char) : List Char → List (List Char)
  | [] => [[]]
  | c :: cs =>
    if c = sep then [] :: splitChars sep cs
    else
      match splitChars sep cs with
      | [] => [[c]]
      | seg :: rest => (c :: seg) :: rest

/-- The character of a decimal digit. -/
def digitChar (d : Nat) : Char :=
  Char.ofNat (48 + d)

/-- The digit loop of `strconv.FormatInt` in base 10 (`for u >= 10`): the digits
of `u` are put in front of `acc`, least significant first; `fuel` bounds the
iterations. -/
def formatDigits : Nat → Nat → List Char → List Char
  | 0, _, acc => acc
  | fuel + 1, u, acc =>
    if u ≥ 10 then formatDigits fuel (u / 10) (digitChar (u % 10) :: acc)
    else digitChar u :: acc

/-- What `fmt.Sprint` prints for an `int64`: its decimal form, as
`strconv.FormatInt(x, 10)`, with a leading `-` for a negative value. -/
def FormatInt (x : Int) : String :=
  if x < 0 then String.mk ('-' :: formatDigits (x.natAbs + 1) x.natAbs [])
  else String.mk (formatDigits (x.natAbs + 1) x.natAbs [])

/-- The largest `uint64`. -/
def maxUint64 : Nat := 2 ^ 64 - 1

/-- The digit loop of `strconv.ParseUint(s, 10, 64)`: `n` is the value read so
far; `none` is a syntax error (a character that is not a decimal digit) or a
range error (`n >= cutoff`, or `n*10 + d` wrapping around or exceeding the
largest `uint64`). -/
def parseDigits : List Char → Nat → Option Nat
  | [], n => some n
  | c :: cs, n =>
    if c ≥ '0' ∧ c ≤ '9' then
      if n ≥ maxUint64 / 10 + 1 then none
      else if n * 10 + (c.toNat - 48) > maxUint64 then none
      else parseDigits cs (n * 10 + (c.toNat - 48))
    else none

/-- Function `strconv.ParseUint(s, 10, 64)`; `none` is an error. -/
def ParseUint (s : List Char) : Option Nat :=
  if s = [] then none else parseDigits s 0

/-- Function `strconv.ParseInt(s, 10, 64)`; `none` is an error. -/
def ParseInt (s : String) : Option Int :=
  match s.data with
  | [] => none
  | c :: cs =>
    let neg := decide (c = '-')
    let rest := if c = '+' ∨ c = '-' then cs else c :: cs
    match ParseUint rest with
    | none => none
    | some un =>
      if neg = false ∧ un ≥ 2 ^ 63 then none
      else if neg = true ∧ un > 2 ^ 63 then none
      else some (if neg = true then -(un : Int) else (un : Int))

/-- Function `strings.Split(s, sep)` for a one-character separator. -/
def Split (s : String) (sep : Char) : List String :=
  (splitChars sep s.data).map String.mk

/-- Function `I64s`. -/
def I64s (ids : List Int) : String :=
  let strs := ids.map FormatInt
  Join strs ","

/-- The loop of `I64Arr` (repo.go 302-311) over the pieces `arr`, threading `ret`. -/
def I64ArrLoop : List String → List Int → List Int
  | [], ret => ret
  | item :: rest, ret =>
    if item = "" then I64ArrLoop rest ret
    else
      match ParseInt item with
      | none => I64ArrLoop rest ret
      | some id => I64ArrLoop rest (ret ++ [id])

/-- Function `I64Arr`. -/
def I64Arr (ids : String) : List Int :=
  if ids = "" then []
  else I64ArrLoop (Split ids ',') []

/-! ## Scan engine: what `reflect` exposes -/

/-- Type `reflect.Kind`. -/
inductive Kind where
  | Invalid | Bool | Int | Int8 | Int16 | Int32 | Int64
  | Uint | Uint8 | Uint16 | Uint32 | Uint64 | Uintptr
  | Float32 | Float64 | Complex64 | Complex128
  | Array | Chan | Func | Interface | Map | Ptr | Slice | String | Struct | UnsafePointer
  deriving DecidableEq, Repr

/-- Static types of destination fields. -/
inductive GoType where
  | bool | int | int8 | int16 | int32 | int64
  | uint | uint8 | uint16 | uint32 | uint64 | uintptr
  | float32 | float64 | complex64 | complex128 | string | unsafePointer
  | array (len : Nat) (elem : GoType)
  | chan (elem : GoType)
  | func (signature : String)
  | interface (name : String)
  | map (key elem : GoType)
  | ptr (elem : GoType)
  | slice (elem : GoType)
  | struct (name : String)
  deriving DecidableEq, Repr

/-- Method `reflect.Type.Kind`. -/
def GoType.Kind : GoType → Kind
  | .bool => .Bool
  | .int => .Int | .int8 => .Int8 | .int16 => .Int16 | .int32 => .Int32 | .int64 => .Int64
  | .uint => .Uint | .uint8 => .Uint8 | .uint16 => .Uint16 | .uint32 => .Uint32
  | .uint64 => .Uint64 | .uintptr => .Uintptr
  | .float32 => .Float32 | .float64 => .Float64
  | .complex64 => .Complex64 | .complex128 => .Complex128
  | .string => .String | .unsafePointer => .UnsafePointer
  | .array _ _ => .Array | .chan _ => .Chan | .func _ => .Func | .interface _ => .Interface
  | .map _ _ => .Map | .ptr _ => .Ptr | .slice _ => .Slice | .struct _ => .Struct

/-- Method `reflect.Type.Elem`: panics (`none`) unless the kind is Array, Chan,
Map, Ptr or Slice. -/
def GoType.Elem : GoType → Option GoType
  | .array _ elem => some elem
  | .chan elem => some elem
  | .map _ elem => some elem
  | .ptr elem => some elem
  | .slice elem => some elem
  | _ => none

/-- Width in bits of the integer kinds. -/
def bitsOf : Kind → Nat
  | .Int8 => 8 | .Uint8 => 8
  | .Int16 => 16 | .Uint16 => 16
  | .Int32 => 32 | .Uint32 => 32
  | _ => 64

/-- Contents of a variable of a destination type.  `float32 x` is the value
`float32(x)`, `string b` a string with the bytes `b`, `ptr v` a non-nil pointer to
a variable holding `v`, `other` a content this code never looks into. -/
inductive GoVal where
  | bool (b : Bool)
  | int (n : Int)
  | uint (n : Nat)
  | float32 (x : F64)
  | float64 (x : F64)
  | string (b : List Nat)
  | bytes (b : List Nat)
  | time (t : Time)
  | nil
  | ptr (target : GoVal)
  | other (id : Nat)
  deriving DecidableEq, Repr

/-- The zero value of a type, as `reflect.New` allocates it. -/
def GoType.zero : GoType → GoVal
  | .bool => .bool false
  | .int => .int 0 | .int8 => .int 0 | .int16 => .int 0 | .int32 => .int 0 | .int64 => .int 0
  | .uint => .uint 0 | .uint8 => .uint 0 | .uint16 => .uint 0 | .uint32 => .uint 0
  | .uint64 => .uint 0 | .uintptr => .uint 0
  | .float32 => .float32 { bits := 0 }
  | .float64 => .float64 { bits := 0 }
  | .string => .string []
  | .struct name => if name = "time.Time" then .time { instant := 0 } else .other 0
  | .complex64 => .other 0 | .complex128 => .other 0 | .array _ _ => .other 0
  | .unsafePointer => .nil | .chan _ => .nil | .func _ => .nil | .interface _ => .nil
  | .map _ _ => .nil | .ptr _ => .nil | .slice _ => .nil

/-- The `reflect.Value` of a struct field: its type, its content, and whether
the field is exported.  A `Value` obtained from an unexported field is
read-only. -/
structure FieldValue where
  typ : GoType
  val : GoVal
  exported : Bool := true
  deriving DecidableEq, Repr

/-- Result of a call that may return an error or panic: `ok a` returned no
error, `fail a err` returned `err`, both leaving the state `a`. -/
inductive Res (α : Type) where
  | ok (a : α)
  | fail (a : α) (err : String)
  | panic
  deriving DecidableEq, Repr

/-- Call `driverValue.Elem().Kind()`: the kind of the dynamic value. -/
def elemKind : Value → Kind
  | .nil => .Invalid
  | .bool _ => .Bool
  | .int _ => .Int
  | .int64 _ => .Int64
  | .str _ => .String
  | .bytes _ => .Slice
  | .uint64 _ => .Uint64
  | .float64 _ => .Float64
  | .time _ => .Struct

/-- Call `driverValue.Elem().Bool()`: panics (`none`) unless the kind is Bool. -/
def elemBool : Value → Option Bool
  | .bool b => some b
  | _ => none

/-- Call `driverValue.Elem().Int()`: panics unless the kind is a signed integer. -/
def elemInt : Value → Option Int
  | .int n => some n
  | .int64 n => some n
  | _ => none

/-- Call `driverValue.Elem().Uint()`: panics unless the kind is an unsigned
integer. -/
def elemUint : Value → Option Nat
  | .uint64 n => some n
  | _ => none

/-- Call `driverValue.Elem().Float()`: panics unless the kind is a float. -/
def elemFloat : Value → Option F64
  | .float64 x => some x
  | _ => none

/-- Call `driverValue.Elem().Bytes()`: panics unless the value is a slice of
bytes. -/
def elemBytes : Value → Option (List Nat)
  | .bytes b => some b
  | _ => none

/-- Expression `reflect.TypeOf(driverValue.Interface()).Elem().Kind()`: panics
unless the dynamic type is an array, chan, map, pointer or slice; of the values a
driver hands over only `[]byte` is one. -/
def typeElemKind : Value → Option Kind
  | .bytes _ => some .Uint8
  | _ => none

/-- Method `reflect.Value.SetBool`. -/
def SetBool (fieldValue : FieldValue) (x : Bool) : FieldValue :=
  { fieldValue with val := .bool x }

/-- Method `reflect.Value.SetInt`: `x` is converted to the width of the field,
keeping the low bits (two's complement). -/
def SetInt (fieldValue : FieldValue) (x : Int) : FieldValue :=
  let w := bitsOf fieldValue.typ.Kind
  { fieldValue with val := .int ((x + 2 ^ (w - 1)) % 2 ^ w - 2 ^ (w - 1)) }

/-- Method `reflect.Value.SetUint`: `x` is truncated to the width of the field. -/
def SetUint (fieldValue : FieldValue) (x : Nat) : FieldValue :=
  { fieldValue with val := .uint (x % 2 ^ bitsOf fieldValue.typ.Kind) }

/-- Method `reflect.Value.SetFloat`: converted to `float32` for a field of that
kind. -/
def SetFloat (fieldValue : FieldValue) (x : F64) : FieldValue :=
  { fieldValue with val := if fieldValue.typ.Kind = .Float32 then .float32 x else .float64 x }

/-- Method `reflect.Value.SetString`, with the bytes of the string. -/
def SetString (fieldValue : FieldValue) (x : List Nat) : FieldValue :=
  { fieldValue with val := .string x }

/-- Method `reflect.Value.SetBytes` on an exported field: panics (`none`) unless
the field is a slice whose element kind is Uint8. -/
def SetBytes (fieldValue : FieldValue) (x : List Nat) : Option FieldValue :=
  match fieldValue.typ with
  | .slice elem => if elem.Kind = .Uint8 then some { fieldValue with val := .bytes x } else none
  | _ => none

/-- Conversion `uint64(x)` of an `int64`: the same 64 bits read as unsigned. -/
def uint64OfInt64 (x : Int) : Nat :=
  (x % 2 ^ 64).toNat

/-- The `sql.Scanner` implementations of the program, by struct type name: the
method `Scan` gets the opaque value and the content of the field and leaves a
content and possibly an error. -/
abbrev Scanners := String → Option (Value → GoVal → GoVal × Option String)

/-- The check that `Interface()` and every store through a `Value` (`Set`,
`SetBool`, `SetInt`, ...) make first: they panic on a `Value` obtained from an
unexported field; on an exported one the call goes on as `next`. -/
def mustBeExported (fieldValue : FieldValue) (next : Res FieldValue) : Res FieldValue :=
  if fieldValue.exported = true then next else .panic

/-! ## Scan engine: coercion -/

/-- Function `parseBool`. -/
def parseBool (value : Value) : Option Bool :=
  elemBool value

/-- Function `setPtrValue` (repo.go 423-437). -/
def setPtrValue (driverValue : Value) (fieldValue : FieldValue) : Res FieldValue :=
  match fieldValue.typ.Elem with
  | none => .panic
  | some t =>
    let v := t.zero
    mustBeExported fieldValue <|
      let fieldValue := { fieldValue with val := .ptr v }
      match t.Kind with
      | .String =>
        match driverValue with
        | .bytes b => .ok { fieldValue with val := .ptr (.string b) }
        | _ => .panic
      | .Int64 =>
        match driverValue with
        | .int64 n => .ok { fieldValue with val := .ptr (.int n) }
        | _ => .panic
      | .Float64 =>
        match driverValue with
        | .float64 x => .ok { fieldValue with val := .ptr (.float64 x) }
        | _ => .panic
      | .Bool =>
        match driverValue with
        | .bool b => .ok { fieldValue with val := .ptr (.bool b) }
        | _ => .panic
      | _ => .ok fieldValue

/-- Function `setModelValue` (repo.go 439-474). -/
def setModelValue (scanners : Scanners) (driverValue : Value) (fieldValue : FieldValue) :
    Res FieldValue :=
  match fieldValue.typ.Kind with
  | .Bool =>
    match parseBool driverValue with
    | none => .panic
    | some b => mustBeExported fieldValue (.ok (SetBool fieldValue b))
  | .Int | .Int8 | .Int16 | .Int32 | .Int64 =>
    match elemInt driverValue with
    | none => .panic
    | some x => mustBeExported fieldValue (.ok (SetInt fieldValue x))
  | .Uint | .Uint8 | .Uint16 | .Uint32 | .Uint64 =>
    match elemKind driverValue with
    | .Int | .Int8 | .Int16 | .Int32 | .Int64 =>
      match elemInt driverValue with
      | none => .panic
      | some x => mustBeExported fieldValue (.ok (SetUint fieldValue (uint64OfInt64 x)))
    | _ =>
      match elemUint driverValue with
      | none => .panic
      | some x => mustBeExported fieldValue (.ok (SetUint fieldValue x))
  | .Float32 | .Float64 =>
    match elemFloat driverValue with
    | none => .panic
    | some x => mustBeExported fieldValue (.ok (SetFloat fieldValue x))
  | .String =>
    match elemBytes driverValue with
    | none => .panic
    | some b => mustBeExported fieldValue (.ok (SetString fieldValue b))
  | .Slice =>
    match typeElemKind driverValue with
    | none => .panic
    | some k =>
      if k = .Uint8 then
        match elemBytes driverValue with
        | none => .panic
        | some b =>
          mustBeExported fieldValue <|
            match SetBytes fieldValue b with
            | none => .panic
            | some fieldValue => .ok fieldValue
      else .ok fieldValue
  | .Ptr => setPtrValue driverValue fieldValue
  | .Struct =>
    mustBeExported fieldValue <|
      match fieldValue.typ with
      | .struct name =>
        if name = "time.Time" then
          match driverValue with
          | .time t => .ok { fieldValue with val := .time t }
          | _ => .panic
        else
          match scanners name with
          | some scan =>
            match scan driverValue fieldValue.val with
            | (val, none) => .ok { fieldValue with val := val }
            | (val, some err) => .fail { fieldValue with val := val } err
          | none => .ok fieldValue
      | _ => .ok fieldValue
  | _ => .ok fieldValue

/-! ## Scan engine: rows and records -/

/-- A destination record behind a pointer: `typ` is `val.Type().String()`, the
type identity of the pointer, `fields` the fields of the struct in declaration
order. -/
structure Record where
  typ : String
  fields : List (String × FieldValue)
  deriving DecidableEq, Repr

/-- Call `val.Elem().FieldByName(name)`: `none` is the invalid `Value`. -/
def FieldByName : List (String × FieldValue) → String → Option FieldValue
  | [], _ => none
  | (n, f) :: rest, name => if n = name then some f else FieldByName rest name

/-- The record after the field `name` has been written through its `Value`. -/
def storeField : List (String × FieldValue) → String → FieldValue →
    List (String × FieldValue)
  | [], _, _ => []
  | (n, f) :: rest, name, fieldValue =>
    if n = name then (n, fieldValue) :: rest else (n, f) :: storeField rest name fieldValue

/-- The row a cursor is positioned at: `cells` pairs each name of
`rows.Columns()` with the opaque value `rows.Scan` leaves in its container,
`scanErr` is the error of `rows.Scan`, if any. -/
structure Row where
  cells : List (String × Value)
  scanErr : Option String
  deriving DecidableEq, Repr

/-- The loop of `scanRows` over the containers (repo.go 398-414). -/
def scanLoop (scanners : Scanners) (o : Orm) :
    List (String × Value) → Record → Res Record
  | [], val => .ok val
  | (key, value) :: rest, val =>
    if value = Value.nil then scanLoop scanners o rest val
    else
      let name := o.Tag2field val.typ key
      match FieldByName val.fields name with
      | none => scanLoop scanners o rest val
      | some field =>
        match setModelValue scanners value field with
        | .ok field =>
          scanLoop scanners o rest { val with fields := storeField val.fields name field }
        | .fail field err =>
          .fail { val with fields := storeField val.fields name field } err
        | .panic => .panic

/-- Method `Repo.scanRows`; of the receiver only the registry `o` is used. -/
def scanRows (scanners : Scanners) (o : Orm) (val : Record) (rows : Row) : Res Record :=
  match rows.scanErr with
  | some err => .fail val err
  | none => scanLoop scanners o rows.cells val

/-- The statement execution behind `Repo.Rows` (`Prepare` then `Query`): the
rows the cursor yields, in order, or an error. -/
abbrev Query := String → List Value → Except String (List Row)

/-- Method `Repo.Rows`; the receiver is returned because `buildSQL` mutates it. -/
def Repo.Rows (query : Query) (r : Repo) : Repo × Except String (List Row) :=
  let r := r.buildSQL
  (r, query r.sql r.args)

/-- A struct type as `Finds` sees it: `typ` is the type identity of a pointer to
it, `fields` its fields in declaration order, each with its name, its type and
whether it is exported. -/
structure StructType where
  typ : String
  fields : List (String × GoType × Bool)
  deriving DecidableEq, Repr

/-- Call `reflect.New(structType)`: a pointer to a new zero record. -/
def StructType.New (structType : StructType) : Record :=
  { typ := structType.typ,
    fields := structType.fields.map
      (fun nt => (nt.1, { typ := nt.2.1, val := nt.2.1.zero, exported := nt.2.2 })) }

/-- The `rows.Next()` loop of `Finds` (repo.go 370-377), threading the
destination sequence. -/
def findsLoop (scanners : Scanners) (o : Orm) (structType : StructType) :
    List Row → List Record → Res (List Record)
  | [], sliceValue => .ok sliceValue
  | rows :: rest, sliceValue =>
    match scanRows scanners o structType.New rows with
    | .ok rowValue => findsLoop scanners o structType rest (sliceValue ++ [rowValue])
    | .fail _ err => .fail sliceValue err
    | .panic => .panic

/-- Method `Repo.Finds`: `structType` is the element type of the destination,
`sliceValue` its content on entry. -/
def Repo.Finds (scanners : Scanners) (o : Orm) (query : Query) (r : Repo)
    (structType : StructType) (sliceValue : List Record) : Repo × Res (List Record) :=
  match r.Rows query with
  | (r, .error err) => (r, .fail sliceValue err)
  | (r, .ok rows) => (r, findsLoop scanners o structType rows sliceValue)

/-! ## Vocabulary of the properties -/

/-- Number of `?` placeholders in a statement text. -/
def placeholders (s : String) : Nat :=
  s.data.count '?'

/-- Positional binding as the driver performs it: scanning the text from the
left, each `?` consumes the next argument and is replaced by its rendering;
a `?` with no argument left stays.  Returns the bound text and the arguments
not consumed. -/
def bindLoop (render : Value → List Char) : List Char → List Value → List Char × List Value
  | [], args => ([], args)
  | c :: cs, args =>
    if c = '?' then
      match args with
      | [] => let (out, rest) := bindLoop render cs []
              (c :: out, rest)
      | a :: as => let (out, rest) := bindLoop render cs as
                   (render a ++ out, rest)
    else
      let (out, rest) := bindLoop render cs args
      (c :: out, rest)

/-- The text obtained by binding `args` to the placeholders of `s`, in order. -/
def bound (render : Value → List Char) (s : String) (args : List Value) : String :=
  String.mk (bindLoop render s.data args).1

/-- A segment with its first character upper-cased and the rest unchanged. -/
def capitalize : List Char → List Char
  | [] => []
  | c :: cs => c.toUpper :: cs

/-- A segment with its first lowercase letter (`a`..`z`) upper-cased and every
other character unchanged. -/
def capFirstLower : List Char → List Char
  | [] => []
  | c :: cs => if c ≥ 'a' ∧ c ≤ 'z' then c.toUpper :: cs else c :: capFirstLower cs

/-- A segment with its first letter (`a`..`z` or `A`..`Z`) upper-cased and every
other character unchanged. -/
def capFirstLetter : List Char → List Char
  | [] => []
  | c :: cs => if c.isAlpha then c.toUpper :: cs else c :: capFirstLetter cs

/-- Upper-casing the first letter of every `_`-separated segment and dropping the
delimiters. -/
def camelFirstLetter (s : String) : String :=
  String.mk ((splitChars '_' s.data).flatMap capFirstLetter)

/-- The non-empty `_`-separated segments, each with its first character
upper-cased, concatenated in order. -/
def camelSegments (s : String) : String :=
  String.mk (((splitChars '_' s.data).filter (fun seg => !seg.isEmpty)).flatMap capitalize)

/-- The kinds of opaque value the specification lists besides the absent one:
boolean, signed integer, floating point, byte sequence, date-time. -/
def listedKind : Value → Bool
  | .bool _ => true
  | .int64 _ => true
  | .float64 _ => true
  | .bytes _ => true
  | .time _ => true
  | _ => false

/-- The coercion matrix in the words of the specification: whether a
destination type takes an opaque value.  Boolean from boolean; any signed or
unsigned integer width from a signed integer; floating point from float; text
from a byte sequence; a byte sequence from a byte sequence when the declared
element is byte-sized; a pointer to string, int64, float64 or bool from the
value its pointee takes; a date-time field from a date-time; any field with a
scan capability from anything. -/
def coercionMatrix (scanners : Scanners) (t : GoType) (v : Value) : Bool :=
  match t, v with
  | .bool, .bool _ => true
  | .int, .int64 _ => true
  | .int8, .int64 _ => true
  | .int16, .int64 _ => true
  | .int32, .int64 _ => true
  | .int64, .int64 _ => true
  | .uint, .int64 _ => true
  | .uint8, .int64 _ => true
  | .uint16, .int64 _ => true
  | .uint32, .int64 _ => true
  | .uint64, .int64 _ => true
  | .float32, .float64 _ => true
  | .float64, .float64 _ => true
  | .string, .bytes _ => true
  | .slice elem, .bytes _ => decide (elem.Kind = Kind.Uint8)
  | .ptr .string, .bytes _ => true
  | .ptr .int64, .int64 _ => true
  | .ptr .float64, .float64 _ => true
  | .ptr .bool, .bool _ => true
  | .struct name, v =>
    (decide (name = "time.Time") && decide (elemKind v = Kind.Struct))
      || (decide (name ≠ "time.Time") && (scanners name).isSome)
  | _, _ => false

/-- Whether a column of a row reaches a field of the record: its opaque value
is not absent and the field name resolved by `Tag2field` is a field of the
record. -/
def reachesField (o : Orm) (val : Record) (cell : String × Value) : Bool :=
  decide (cell.2 ≠ Value.nil) && (FieldByName val.fields (o.Tag2field val.typ cell.1)).isSome

/-! ## Concrete inputs used in the examples -/

/-- The builder state of the running example: table `users`, predicate `id=?`
with argument `5`, ordering `id desc`, limit `10`, offset `20`, no projection. -/
def usersQuery : Repo :=
  (((NewRepo true "users").Where "id=?" [Value.int 5]).OrderBy "id desc").Limit 10 [20]

/-- The builder state of an update by key with a row limit: table `t`, predicate
`id=?` with argument `5`, limit `1`. -/
def limitedUpdate : Repo :=
  ((NewRepo true "t").Where "id=?" [Value.int 5]).Limit 1 []

/-- A rendering of values that tells the arguments of the running example
apart: `5` is `a`, `10` is `b`, anything else is `c`. -/
def tagRender (v : Value) : List Char :=
  if v = Value.int 5 then ['a'] else if v = Value.int 10 then ['b'] else ['c']

/-- A program without `sql.Scanner` implementations. -/
def noScanners : Scanners :=
  fun _ => none

/-- A record type `model.User` with the exported fields `Id int64`,
`UserName string` and `Age uint8`. -/
def userType : StructType :=
  { typ := "*model.User",
    fields := [("Id", GoType.int64, true), ("UserName", GoType.string, true),
      ("Age", GoType.uint8, true)] }

/-- A row of `users`: columns `id`, `missing` (no such field), `user_name` and a
null `age`. -/
def userRow : Row :=
  { cells := [("id", Value.int64 3), ("missing", Value.int64 1),
      ("user_name", Value.bytes [97, 98]), ("age", Value.nil)],
    scanErr := none }

/-- A second row of `users`: columns `id` and `age`. -/
def userRow2 : Row :=
  { cells := [("id", Value.int64 4), ("age", Value.int64 30)], scanErr := none }

/-- A cursor that yields `userRow` then `userRow2` for any statement. -/
def twoRows : Query :=
  fun _ _ => Except.ok [userRow, userRow2]

/-- A prototype whose two fields carry the same tag `x`. -/
def dupTagProto : Prototype :=
  { typ := "*main.T", fields := [{ Name := "A", Tag := "x" }, { Name := "B", Tag := "x" }] }

/-- A prototype of type identity `*model.User`: field `FullName` tagged `name`,
and an untagged field `Age`. -/
def userA : Prototype :=
  { typ := "*model.User",
    fields := [{ Name := "FullName", Tag := "name" }, { Name := "Age", Tag := "" }] }

/-- Another prototype with the same type identity `*model.User` (a type `User` of
a different package that is also named `model`): field `Nick` tagged `nick`. -/
def userB : Prototype :=
  { typ := "*model.User", fields := [{ Name := "Nick", Tag := "nick" }] }

end OrmModel


namespace OrmModel

/-! ## Lemmas on placeholders and binding -/

theorem placeholders_append (a b : String) :
    placeholders (a ++ b) = placeholders a + placeholders b := by
  simp [placeholders, String.data_append, List.count_append]

theorem placeholders_empty : placeholders "" = 0 := by
  decide

theorem bindLoop_append (render : Value → List Char) (a b : List Char) (args : List Value) :
    bindLoop render (a ++ b) args =
      ((bindLoop render a args).1 ++ (bindLoop render b (bindLoop render a args).2).1,
        (bindLoop render b (bindLoop render a args).2).2) := by
  induction a generalizing args with
  | nil => simp [bindLoop]
  | cons c cs ih =>
    by_cases hc : c = '?'
    · cases args with
      | nil => simp [bindLoop, hc, ih]
      | cons x xs => simp [bindLoop, hc, ih]
    · simp [bindLoop, hc, ih]

theorem bindLoop_plain (render : Value → List Char) (a : List Char) (args : List Value)
    (h : a.count '?' = 0) : bindLoop render a args = (a, args) := by
  induction a with
  | nil => simp [bindLoop]
  | cons c cs ih =>
    have hc : c ≠ '?' := by
      intro hc
      simp [hc] at h
    have hcs : cs.count '?' = 0 := by
      simpa [List.count_cons, hc] using h
    simp [bindLoop, hc, ih hcs]

theorem bindLoop_exact (render : Value → List Char) (w : List Char) (args more : List Value)
    (h : w.count '?' = args.length) :
    bindLoop render w (args ++ more) = ((bindLoop render w args).1, more) := by
  induction w generalizing args with
  | nil =>
    have : args = [] := by
      cases args with
      | nil => rfl
      | cons x xs => simp at h
    simp [bindLoop, this]
  | cons c cs ih =>
    by_cases hc : c = '?'
    · cases args with
      | nil => simp [hc] at h
      | cons x xs =>
        have hcs : cs.count '?' = xs.length := by
          simpa [hc] using h
        simp [bindLoop, hc, ih xs hcs]
    · have hcs : cs.count '?' = args.length := by
        simpa [List.count_cons, hc] using h
      simp [bindLoop, hc, ih args hcs]

/-- Binding through a statement made of a placeholder-free head `A`, a predicate
clause `W` owning the arguments `args`, a placeholder-free clause `O`, and two
trailing clauses that consume `LA` and `FA`. -/
theorem bound_clauses (render : Value → List Char) (A W O L F W' L' F' : String)
    (args LA FA : List Value)
    (hA : placeholders A = 0) (hW : placeholders W = args.length) (hO : placeholders O = 0)
    (hW' : (bindLoop render W.data args).1 = W'.data)
    (hL : bindLoop render L.data (LA ++ FA) = (L'.data, FA))
    (hF : bindLoop render F.data FA = (F'.data, [])) :
    (bindLoop render (A ++ W ++ O ++ L ++ F).data (args ++ LA ++ FA)).2 = []
    ∧ bound render (A ++ W ++ O ++ L ++ F) (args ++ LA ++ FA) = A ++ W' ++ O ++ L' ++ F' := by
  have hWx := bindLoop_exact render W.data args (LA ++ FA) hW
  have key : bindLoop render (A ++ W ++ O ++ L ++ F).data (args ++ LA ++ FA)
      = ((A ++ W' ++ O ++ L' ++ F').data, []) := by
    simp only [String.data_append, List.append_assoc] at hWx ⊢
    simp [bindLoop_append, bindLoop_plain render A.data _ hA, hWx,
      bindLoop_plain render O.data _ hO, hL, hF, hW']
  refine ⟨by rw [key], ?_⟩
  apply String.ext
  simp only [bound, key]

/-- Binding a placeholder-free keyword followed by one `?`. -/
theorem bindLoop_keyword (render : Value → List Char) (kw : List Char) (v : Value)
    (more : List Value) (h : kw.count '?' = 0) :
    bindLoop render (kw ++ ['?']) (v :: more) = (kw ++ render v, more) := by
  simp [bindLoop_append, bindLoop_plain render kw _ h, bindLoop]

/-! ## Lemmas on the attribute loops -/

theorem insertLoop_eq (attrs : G) (keys qms : List String) (vals : List Value) :
    Repo.insertLoop attrs keys qms vals =
      (keys ++ attrs.map (fun kv => "`" ++ kv.1 ++ "`"),
        qms ++ List.replicate attrs.length "?",
        vals ++ attrs.map Prod.snd) := by
  induction attrs generalizing keys qms vals with
  | nil => simp [Repo.insertLoop]
  | cons kv rest ih =>
    obtain ⟨k, v⟩ := kv
    simp [Repo.insertLoop, ih, List.replicate_succ]

theorem updateLoop_eq (attrs : G) (keys : List String) (vals : List Value) :
    Repo.updateLoop attrs keys vals =
      (keys ++ attrs.map (fun kv => "`" ++ kv.1 ++ "`=?"), vals ++ attrs.map Prod.snd) := by
  induction attrs generalizing keys vals with
  | nil => simp [Repo.updateLoop]
  | cons kv rest ih =>
    obtain ⟨k, v⟩ := kv
    simp [Repo.updateLoop, ih]

theorem placeholders_Join_qms (n : Nat) :
    placeholders (Join (List.replicate n "?") ",") = n := by
  induction n with
  | zero => decide
  | succ n ih =>
    cases n with
    | zero => decide
    | succ m =>
      have e1 : placeholders "?" = 1 := by decide
      have e2 : placeholders "," = 0 := by decide
      rw [List.replicate_succ, List.replicate_succ, Join, ← List.replicate_succ,
        placeholders_append, placeholders_append, ih, e1, e2]
      omega

theorem updateStmt_eq (r : Repo) (attrs : G) :
    r.updateStmt attrs =
      ("UPDATE `" ++ r.tbl ++ "` SET " ++ Join (attrs.map (fun kv => "`" ++ kv.1 ++ "`=?")) ","
          ++ (if r.where_ ≠ "" then " WHERE " ++ r.where_ else ""),
        attrs.map Prod.snd ++ (if r.where_ ≠ "" then r.args else [])
          ++ (if r.limit > 0 then [Value.int r.limit] else [])) := by
  by_cases hw : r.where_ = "" <;> by_cases hl : r.limit > 0 <;>
    simp [-String.reduceAppend, Repo.updateStmt, updateLoop_eq, hw, hl]

theorem placeholders_Join_sets (attrs : G) (h : ∀ kv ∈ attrs, placeholders kv.1 = 0) :
    placeholders (Join (attrs.map (fun kv => "`" ++ kv.1 ++ "`=?")) ",") = attrs.length := by
  have e1 : placeholders "`" = 0 := by decide
  have e2 : placeholders "`=?" = 1 := by decide
  have e3 : placeholders "," = 0 := by decide
  induction attrs with
  | nil => decide
  | cons a rest ih =>
    have ha : placeholders a.1 = 0 := h a (List.mem_cons_self _ _)
    have hrest := ih (fun kv hkv => h kv (List.mem_cons_of_mem _ hkv))
    cases rest with
    | nil => simp [-String.reduceAppend, Join, placeholders_append, e1, e2, ha]
    | cons b rest2 =>
      have hj : Join (List.map (fun kv => "`" ++ kv.1 ++ "`=?") (a :: b :: rest2)) ","
          = "`" ++ a.1 ++ "`=?" ++ ","
            ++ Join (List.map (fun kv => "`" ++ kv.1 ++ "`=?") (b :: rest2)) "," := rfl
      rw [hj, placeholders_append, hrest]
      simp [-String.reduceAppend, placeholders_append, e1, e2, e3, ha]
      omega

/-- The statement of `Update` has one placeholder per attribute and per predicate
argument, and none for the limit that is appended to the arguments. -/
theorem updateStmt_placeholders (r : Repo) (attrs : G)
    (hw : placeholders r.where_ = r.args.length) (ht : placeholders r.tbl = 0)
    (hk : ∀ kv ∈ attrs, placeholders kv.1 = 0) :
    (r.updateStmt attrs).2.length
      = placeholders (r.updateStmt attrs).1 + (if r.limit > 0 then 1 else 0) := by
  have e1 : placeholders "UPDATE `" = 0 := by decide
  have e2 : placeholders "` SET " = 0 := by decide
  have e3 : placeholders " WHERE " = 0 := by decide
  rw [updateStmt_eq]
  by_cases hwe : r.where_ = ""
  · have hargs : r.args.length = 0 := by rw [← hw, hwe]; decide
    by_cases hl : r.limit > 0 <;>
      simp [-String.reduceAppend, placeholders_append, placeholders_Join_sets attrs hk,
        e1, e2, ht, hwe, hl, placeholders_empty]
  · by_cases hl : r.limit > 0
    · simp [-String.reduceAppend, placeholders_append, placeholders_Join_sets attrs hk,
        e1, e2, e3, ht, hw, hwe, hl]
      omega
    · simp [-String.reduceAppend, placeholders_append, placeholders_Join_sets attrs hk,
        e1, e2, e3, ht, hw, hwe, hl]

/-! ## Lemmas on maps and registration -/

theorem GoMap.get?_filter_ne {β : Type} (m : GoMap β) (k k' : String) (h : k' ≠ k) :
    GoMap.get? (m.filter (fun e => e.1 != k)) k' = GoMap.get? m k' := by
  induction m with
  | nil => rfl
  | cons e rest ih =>
    obtain ⟨a, b⟩ := e
    by_cases ha : a = k
    · have hak : ¬ a = k' := fun h' => h (h' ▸ ha)
      have hf : ¬ ((fun e : String × β => e.1 != k) (a, b) = true) := by simp [ha]
      rw [@List.filter_cons_of_neg _ (fun e : String × β => e.1 != k) (a, b) rest hf, ih]
      simp only [GoMap.get?, hak, if_false]
    · have hf : (fun e : String × β => e.1 != k) (a, b) = true := by simp [ha]
      rw [@List.filter_cons_of_pos _ (fun e : String × β => e.1 != k) (a, b) rest hf]
      by_cases hak : a = k'
      · simp only [GoMap.get?, hak, if_true]
      · simp only [GoMap.get?, hak, if_false, ih]

theorem GoMap.get?_set_self {β : Type} (m : GoMap β) (k : String) (v : β) :
    GoMap.get? (m.set k v) k = some v := by
  simp only [GoMap.set, GoMap.get?, if_true]

theorem GoMap.get?_set_ne {β : Type} (m : GoMap β) (k k' : String) (v : β) (h : k' ≠ k) :
    GoMap.get? (m.set k v) k' = GoMap.get? m k' := by
  have hk : ¬ k = k' := fun h' => h h'.symm
  simp only [GoMap.set, GoMap.get?, hk, if_false]
  exact GoMap.get?_filter_ne m k k' h

theorem registerFields_append (pre post : List StructField) (m : GoMap String) :
    registerFields (pre ++ post) m = registerFields post (registerFields pre m) := by
  induction pre generalizing m with
  | nil => rfl
  | cons f rest ih => simp [registerFields, ih]

/-- Fields that are untagged or carry another tag leave the entry of `tag` alone. -/
theorem registerFields_skip (fs : List StructField) (m : GoMap String) (tag : String)
    (h : ∀ g ∈ fs, g.Tag = "" ∨ g.Tag ≠ tag) :
    GoMap.get? (registerFields fs m) tag = GoMap.get? m tag := by
  induction fs generalizing m with
  | nil => rfl
  | cons f rest ih =>
    have hrest : ∀ g ∈ rest, g.Tag = "" ∨ g.Tag ≠ tag :=
      fun g hg => h g (List.mem_cons_of_mem _ hg)
    rcases h f (List.mem_cons_self _ _) with hf | hf
    · simp [registerFields, hf, ih _ hrest]
    · by_cases he : f.Tag = ""
      · simp [registerFields, he, ih _ hrest]
      · simp only [registerFields, ne_eq, he, not_false_eq_true, if_true]
        rw [ih _ hrest, GoMap.get?_set_ne _ _ _ _ (fun h' => hf h'.symm)]

/-- The last field carrying a non-empty tag owns the entry of that tag. -/
theorem registerFields_last (pre post : List StructField) (f : StructField)
    (m : GoMap String) (htag : f.Tag ≠ "") (hlast : ∀ g ∈ post, g.Tag ≠ f.Tag) :
    GoMap.get? (registerFields (pre ++ f :: post) m) f.Tag = some f.Name := by
  rw [registerFields_append]
  simp only [registerFields, ne_eq, htag, not_false_eq_true, if_true]
  rw [registerFields_skip post _ f.Tag (fun g hg => Or.inr (hlast g hg)),
    GoMap.get?_set_self]

/-- A list holding a field tagged `tag` splits at the last such field. -/
theorem exists_last_tagged (fs : List StructField) (tag : String)
    (h : ∃ g ∈ fs, g.Tag = tag) :
    ∃ pre f post, fs = pre ++ f :: post ∧ f.Tag = tag ∧ ∀ g ∈ post, g.Tag ≠ tag := by
  induction fs with
  | nil =>
    obtain ⟨g, hg, _⟩ := h
    cases hg
  | cons a rest ih =>
    by_cases hr : ∃ g ∈ rest, g.Tag = tag
    · obtain ⟨pre, f, post, he, hf, hp⟩ := ih hr
      exact ⟨a :: pre, f, post, by rw [he]; rfl, hf, hp⟩
    · have ha : a.Tag = tag := by
        obtain ⟨g, hg, hgt⟩ := h
        rcases List.mem_cons.mp hg with hga | hgr
        · rw [← hga]; exact hgt
        · exact absurd ⟨g, hgr, hgt⟩ hr
      exact ⟨[], a, rest, rfl, ha, fun g hg hgt => hr ⟨g, hg, hgt⟩⟩

/-- The map built from the fields alone: an entry `tag ↦ name` exists iff `tag`
is non-empty and `name` is the identifier of the last field tagged `tag`. -/
theorem registerFields_get?_iff (fs : List StructField) (tag name : String) :
    GoMap.get? (registerFields fs []) tag = some name ↔
      tag ≠ "" ∧ ∃ pre f post, fs = pre ++ f :: post ∧ f.Tag = tag ∧ f.Name = name
        ∧ ∀ g ∈ post, g.Tag ≠ tag := by
  constructor
  · intro h
    by_cases hex : tag ≠ "" ∧ ∃ g ∈ fs, g.Tag = tag
    · obtain ⟨hne, hg⟩ := hex
      obtain ⟨pre, f, post, he, hf, hp⟩ := exists_last_tagged fs tag hg
      refine ⟨hne, pre, f, post, he, hf, ?_, hp⟩
      have hl := registerFields_last pre post f [] (by rw [hf]; exact hne)
        (by rw [hf]; exact hp)
      rw [← he, hf, h] at hl
      exact (Option.some.inj hl).symm
    · have hskip : ∀ g ∈ fs, g.Tag = "" ∨ g.Tag ≠ tag := by
        intro g hg
        by_cases hgt : g.Tag = tag
        · left
          by_contra hne
          exact hex ⟨by rw [← hgt]; exact hne, g, hg, hgt⟩
        · exact Or.inr hgt
      rw [registerFields_skip fs [] tag hskip] at h
      simp [GoMap.get?] at h
  · rintro ⟨hne, pre, f, post, he, hf, hn, hp⟩
    have hl := registerFields_last pre post f [] (by rw [hf]; exact hne)
      (by rw [hf]; exact hp)
    rw [← he, hf, hn] at hl
    exact hl

theorem Register_append (o : Orm) (vs ws : List Prototype) :
    o.Register (vs ++ ws) = (o.Register vs).Register ws := by
  induction vs generalizing o with
  | nil => rfl
  | cons v rest ih => simp [Orm.Register, ih]

/-- Prototypes of other type identities leave the mapping of `typ` alone. -/
theorem Register_skip (o : Orm) (vs : List Prototype) (typ : String)
    (h : ∀ q ∈ vs, q.typ ≠ typ) :
    GoMap.get? (o.Register vs).mappings typ = GoMap.get? o.mappings typ := by
  induction vs generalizing o with
  | nil => rfl
  | cons v rest ih =>
    have hv : typ ≠ v.typ := fun h' => h v (List.mem_cons_self _ _) h'.symm
    simp only [Orm.Register]
    rw [ih _ (fun q hq => h q (List.mem_cons_of_mem _ hq))]
    exact GoMap.get?_set_ne _ _ _ _ hv

/-- The last prototype of a type identity owns the mapping of that identity, and
the mapping is built from its fields alone. -/
theorem Register_last (o : Orm) (vpre vpost : List Prototype) (p : Prototype)
    (h : ∀ q ∈ vpost, q.typ ≠ p.typ) :
    GoMap.get? (o.Register (vpre ++ p :: vpost)).mappings p.typ
      = some (registerFields p.fields []) := by
  rw [Register_append]
  simp only [Orm.Register]
  rw [Register_skip _ vpost p.typ h]
  exact GoMap.get?_set_self _ _ _

/-! ## Reads: `buildSQL` -/

theorem buildSQL_sql (r : Repo) :
    r.buildSQL.sql =
      "SELECT " ++ (if r.cols = "" then "*" else r.cols) ++ " FROM `" ++ r.tbl ++ "`"
        ++ (if r.where_ ≠ "" then " WHERE " ++ r.where_ else "")
        ++ (if r.orderBy ≠ "" then " ORDER BY " ++ r.orderBy else "")
        ++ (if r.limit > 0 then " LIMIT ?" else "")
        ++ (if r.offset > 0 then " OFFSET ?" else "") := by
  by_cases hc : r.cols = "" <;> by_cases hw : r.where_ = "" <;>
    by_cases ho : r.orderBy = "" <;> by_cases hl : r.limit > 0 <;>
    by_cases hf : r.offset > 0 <;>
    simp [-String.reduceAppend, Repo.buildSQL, hc, hw, ho, hl, hf, String.append_assoc]

theorem buildSQL_args (r : Repo) :
    r.buildSQL.args =
      r.args ++ (if r.limit > 0 then [Value.int r.limit] else [])
        ++ (if r.offset > 0 then [Value.int r.offset] else []) := by
  by_cases hc : r.cols = "" <;> by_cases hl : r.limit > 0 <;>
    by_cases hf : r.offset > 0 <;>
    simp [Repo.buildSQL, hc, hl, hf]

theorem buildSQL_frame (r : Repo) :
    r.buildSQL.tbl = r.tbl ∧ r.buildSQL.where_ = r.where_ ∧ r.buildSQL.orderBy = r.orderBy
    ∧ r.buildSQL.limit = r.limit ∧ r.buildSQL.offset = r.offset
    ∧ r.buildSQL.cols = (if r.cols = "" then "*" else r.cols) := by
  by_cases hc : r.cols = "" <;> by_cases hl : r.limit > 0 <;>
    by_cases hf : r.offset > 0 <;>
    simp [Repo.buildSQL, hc, hl, hf]

theorem buildSQL_cols_ne (r : Repo) : r.buildSQL.cols ≠ "" := by
  rw [(buildSQL_frame r).2.2.2.2.2]
  by_cases hc : r.cols = ""
  · simp [hc]
  · simp [hc]

/-- C1: the first render by `buildSQL` produces `SELECT <projection or *> FROM <table>`
followed by the WHERE clause iff the predicate is non-empty, the ORDER BY clause
iff the ordering is non-empty, ` LIMIT ?` iff `limit > 0` and ` OFFSET ?` iff
`offset > 0`, in that order; the arguments are the predicate arguments, then the
limit iff `limit > 0`, then the offset iff `offset > 0`.  On the running example
this is the `users` statement with arguments `[5, 10, 20]`. -/
theorem buildSQL_renders :
    (∀ r : Repo,
      r.buildSQL.sql =
          "SELECT " ++ (if r.cols = "" then "*" else r.cols) ++ " FROM `" ++ r.tbl ++ "`"
            ++ (if r.where_ ≠ "" then " WHERE " ++ r.where_ else "")
            ++ (if r.orderBy ≠ "" then " ORDER BY " ++ r.orderBy else "")
            ++ (if r.limit > 0 then " LIMIT ?" else "")
            ++ (if r.offset > 0 then " OFFSET ?" else "")
        ∧ r.buildSQL.args =
          r.args ++ (if r.limit > 0 then [Value.int r.limit] else [])
            ++ (if r.offset > 0 then [Value.int r.offset] else []))
    ∧ usersQuery.buildSQL.sql
        = "SELECT * FROM `users` WHERE id=? ORDER BY id desc LIMIT ? OFFSET ?"
    ∧ usersQuery.buildSQL.args = [Value.int 5, Value.int 10, Value.int 20] := by
  exact ⟨fun r => ⟨buildSQL_sql r, buildSQL_args r⟩, by decide, by decide⟩

/-- C2: when the predicate has exactly as many `?` as it has arguments and the
table, projection and ordering have none, the statement rendered once by
`buildSQL` has exactly as many `?` as the resulting argument list has elements,
and binding the arguments positionally consumes all of them and gives the
predicate's placeholders the predicate arguments in order, the LIMIT
placeholder the limit and the OFFSET placeholder the offset. -/
theorem buildSQL_args_match_placeholders (r : Repo)
    (hw : placeholders r.where_ = r.args.length) (ht : placeholders r.tbl = 0)
    (hc : placeholders r.cols = 0) (ho : placeholders r.orderBy = 0) :
    placeholders r.buildSQL.sql = r.buildSQL.args.length
    ∧ ∀ render : Value → List Char,
        (bindLoop render r.buildSQL.sql.data r.buildSQL.args).2 = []
        ∧ bound render r.buildSQL.sql r.buildSQL.args =
          "SELECT " ++ (if r.cols = "" then "*" else r.cols) ++ " FROM `" ++ r.tbl ++ "`"
            ++ (if r.where_ ≠ "" then " WHERE " ++ bound render r.where_ r.args else "")
            ++ (if r.orderBy ≠ "" then " ORDER BY " ++ r.orderBy else "")
            ++ (if r.limit > 0 then " LIMIT " ++ String.mk (render (Value.int r.limit)) else "")
            ++ (if r.offset > 0 then " OFFSET " ++ String.mk (render (Value.int r.offset))
                else "") := by
  have hA : placeholders
      ("SELECT " ++ (if r.cols = "" then "*" else r.cols) ++ " FROM `" ++ r.tbl ++ "`") = 0 := by
    have e1 : placeholders "SELECT " = 0 := by decide
    have e2 : placeholders " FROM `" = 0 := by decide
    have e3 : placeholders "`" = 0 := by decide
    have e4 : placeholders "*" = 0 := by decide
    by_cases h : r.cols = "" <;> simp [-String.reduceAppend, placeholders_append, e1, e2, e3, ht, h]
    · exact e4
    · exact hc
  have hW : placeholders (if r.where_ ≠ "" then " WHERE " ++ r.where_ else "")
      = r.args.length := by
    have e1 : placeholders " WHERE " = 0 := by decide
    by_cases h : r.where_ = ""
    · rw [h] at hw
      simp [h, ← hw]
    · simp [-String.reduceAppend, h, placeholders_append, e1, hw]
  have hO : placeholders (if r.orderBy ≠ "" then " ORDER BY " ++ r.orderBy else "") = 0 := by
    have e1 : placeholders " ORDER BY " = 0 := by decide
    by_cases h : r.orderBy = ""
    · simp [h, placeholders_empty]
    · simp [-String.reduceAppend, h, placeholders_append, e1, ho]
  have hL : placeholders (if r.limit > 0 then " LIMIT ?" else "")
      = (if r.limit > 0 then [Value.int r.limit] else []).length := by
    by_cases h : r.limit > 0 <;> simp [h] <;> decide
  have hF : placeholders (if r.offset > 0 then " OFFSET ?" else "")
      = (if r.offset > 0 then [Value.int r.offset] else []).length := by
    by_cases h : r.offset > 0 <;> simp [h] <;> decide
  refine ⟨?_, fun render => ?_⟩
  · rw [buildSQL_sql, buildSQL_args]
    simp only [placeholders_append, List.length_append, hA, hW, hO, hL, hF]
    omega
  · have hbL : bindLoop render (if r.limit > 0 then " LIMIT ?" else "").data
        ((if r.limit > 0 then [Value.int r.limit] else [])
          ++ (if r.offset > 0 then [Value.int r.offset] else []))
        = ((if r.limit > 0 then " LIMIT " ++ String.mk (render (Value.int r.limit))
              else "").data,
            if r.offset > 0 then [Value.int r.offset] else []) := by
      by_cases h : r.limit > 0
      · simp only [h, if_true, List.singleton_append, String.data_append]
        exact bindLoop_keyword render " LIMIT ".data _ _ (by decide)
      · simp [h, bindLoop]
    have hbF : bindLoop render (if r.offset > 0 then " OFFSET ?" else "").data
        (if r.offset > 0 then [Value.int r.offset] else [])
        = ((if r.offset > 0 then " OFFSET " ++ String.mk (render (Value.int r.offset))
              else "").data, []) := by
      by_cases h : r.offset > 0
      · simp only [h, if_true, String.data_append]
        exact bindLoop_keyword render " OFFSET ".data _ _ (by decide)
      · simp [h, bindLoop]
    have hbW : (bindLoop render (if r.where_ ≠ "" then " WHERE " ++ r.where_ else "").data
        r.args).1
        = (if r.where_ ≠ "" then " WHERE " ++ bound render r.where_ r.args else "").data := by
      by_cases h : r.where_ = ""
      · simp [h, bindLoop_plain]
      · simp only [ne_eq, h, not_false_eq_true, if_true, String.data_append, bound]
        rw [bindLoop_append, bindLoop_plain render " WHERE ".data _ (by decide)]
    rw [buildSQL_sql, buildSQL_args]
    exact bound_clauses render _ _ _ _ _ _ _ _ r.args _ _ hA hW hO hbW hbL hbF

/-- A witness of C2 on the running example: three placeholders, three
arguments, bound in the order predicate, limit, offset (each argument is shown
by `tagRender` as a letter: `5` as `a`, `10` as `b`, `20` as `c`). -/
theorem buildSQL_args_match_placeholders_witness :
    placeholders usersQuery.where_ = usersQuery.args.length
    ∧ placeholders usersQuery.buildSQL.sql = usersQuery.buildSQL.args.length
    ∧ usersQuery.buildSQL.args.length = 3
    ∧ bound tagRender usersQuery.buildSQL.sql usersQuery.buildSQL.args
        = "SELECT * FROM `users` WHERE id=a ORDER BY id desc LIMIT b OFFSET c" :=
  ⟨by decide,
    (buildSQL_args_match_placeholders usersQuery (by decide) (by decide) (by decide)
      (by decide)).1,
    by decide, by decide⟩

/-- C7: rendering twice keeps the text but appends the limit and/or the offset
to the arguments a second time: when `limit > 0` or `offset > 0` the second
argument list is strictly longer than the first, so it cannot match the
placeholders if the first did; when `limit <= 0` and `offset <= 0` the second
render changes nothing. -/
theorem buildSQL_twice (r : Repo) :
    r.buildSQL.buildSQL.sql = r.buildSQL.sql
    ∧ r.buildSQL.buildSQL.args =
        r.buildSQL.args ++ (if r.limit > 0 then [Value.int r.limit] else [])
          ++ (if r.offset > 0 then [Value.int r.offset] else [])
    ∧ (r.limit > 0 ∨ r.offset > 0 →
        r.buildSQL.args.length < r.buildSQL.buildSQL.args.length
        ∧ (placeholders r.buildSQL.sql = r.buildSQL.args.length →
            placeholders r.buildSQL.buildSQL.sql ≠ r.buildSQL.buildSQL.args.length))
    ∧ (r.limit ≤ 0 → r.offset ≤ 0 → r.buildSQL.buildSQL = r.buildSQL) := by
  obtain ⟨ht, hw, ho, hl, hf, hc⟩ := buildSQL_frame r
  have hsql : r.buildSQL.buildSQL.sql = r.buildSQL.sql := by
    rw [buildSQL_sql r.buildSQL, buildSQL_sql r, ht, hw, ho, hl, hf,
      if_neg (buildSQL_cols_ne r), hc]
  have hargs : r.buildSQL.buildSQL.args =
      r.buildSQL.args ++ (if r.limit > 0 then [Value.int r.limit] else [])
        ++ (if r.offset > 0 then [Value.int r.offset] else []) := by
    rw [buildSQL_args r.buildSQL, hl, hf]
  refine ⟨hsql, hargs, fun h => ?_, fun h1 h2 => ?_⟩
  · have hlen : r.buildSQL.args.length < r.buildSQL.buildSQL.args.length := by
      rw [hargs]
      rcases h with h | h
      · by_cases h' : r.offset > 0 <;> simp [h, h']
      · by_cases h' : r.limit > 0 <;> simp [h, h']
    refine ⟨hlen, fun hm => ?_⟩
    rw [hsql, hm]
    omega
  · have h1' : ¬ r.limit > 0 := by omega
    have h2' : ¬ r.offset > 0 := by omega
    by_cases hc' : r.cols = "" <;> by_cases hw' : r.where_ = "" <;>
      by_cases ho' : r.orderBy = "" <;>
      simp [Repo.buildSQL, h1', h2', hc', hw', ho']

/-- A witness of C7 on the running example: the second render repeats `10, 20`
at the end of the arguments and leaves the text alone. -/
theorem buildSQL_twice_witness :
    (usersQuery.limit > 0 ∨ usersQuery.offset > 0)
    ∧ usersQuery.buildSQL.args.length < usersQuery.buildSQL.buildSQL.args.length
    ∧ usersQuery.buildSQL.buildSQL.args
        = [Value.int 5, Value.int 10, Value.int 20, Value.int 10, Value.int 20]
    ∧ (NewRepo true "users").limit ≤ 0 ∧ (NewRepo true "users").offset ≤ 0
    ∧ (NewRepo true "users").buildSQL.buildSQL = (NewRepo true "users").buildSQL :=
  ⟨by decide, ((buildSQL_twice usersQuery).2.2.1 (by decide)).1, by decide, by decide,
    by decide, (buildSQL_twice (NewRepo true "users")).2.2.2 (by decide) (by decide)⟩

/-! ## Writes: `Update`, `Insert`, `Delete` -/

/-- C3 (defect): with a positive limit `Update` hands the driver one argument
more than the statement has placeholders: the limit is appended to the
arguments but no ` LIMIT ?` is written to the text, whereas `Delete` on the same
builder state writes it. -/
theorem updateStmt_limit_without_placeholder :
    limitedUpdate.updateStmt [("name", Value.str "x")]
      = ("UPDATE `t` SET `name`=? WHERE id=?", [Value.str "x", Value.int 5, Value.int 1])
    ∧ placeholders limitedUpdate.where_ = limitedUpdate.args.length
    ∧ placeholders (limitedUpdate.updateStmt [("name", Value.str "x")]).1 = 2
    ∧ (limitedUpdate.updateStmt [("name", Value.str "x")]).2.length = 3
    ∧ limitedUpdate.deleteStmt.1 = "DELETE FROM `t` WHERE id=? LIMIT ?"
    ∧ limitedUpdate.deleteStmt.2.args = [Value.int 5, Value.int 1] := by
  decide

/-- C4: for attributes visited in the order `(k1,v1),...,(kn,vn)`, `Update`
calls the driver with the text `UPDATE <table> SET <k1>=?,...,<kn>=?` followed
by the WHERE clause iff the predicate is non-empty, and with the arguments
`[v1,...,vn]`, then the predicate arguments iff the predicate is non-empty, then
the limit iff `limit > 0`; its result is the driver's.  With no predicate the
text has no WHERE clause. -/
theorem Update_renders :
    (∀ (r : Repo) (attrs : G),
      (r.updateStmt attrs).1 =
        "UPDATE `" ++ r.tbl ++ "` SET "
          ++ Join (attrs.map (fun kv => "`" ++ kv.1 ++ "`=?")) ","
          ++ (if r.where_ ≠ "" then " WHERE " ++ r.where_ else "")
    ∧ (r.updateStmt attrs).2 =
        attrs.map Prod.snd ++ (if r.where_ ≠ "" then r.args else [])
          ++ (if r.limit > 0 then [Value.int r.limit] else [])
    ∧ ∀ exec : Exec, r.Update exec attrs =
        match exec (r.updateStmt attrs).1 (r.updateStmt attrs).2 with
        | .error err => .error err
        | .ok ret => ret.RowsAffected)
    ∧ (NewRepo true "t").updateStmt [("name", Value.str "x"), ("age", Value.int 7)]
        = ("UPDATE `t` SET `name`=?,`age`=?", [Value.str "x", Value.int 7]) := by
  refine ⟨fun r attrs => ⟨by rw [updateStmt_eq], by rw [updateStmt_eq], fun exec => rfl⟩,
    by decide⟩

/-- C5: for attributes visited in the order `(k1,v1),...,(kn,vn)`, `Insert` on
table `t` calls the driver with the text `INSERT INTO <t>(<k1>,...,<kn>)
VALUES(?,...,?)`, the VALUES list holding exactly `n` placeholders, and with the
arguments `[v1,...,vn]`, so that the `i`-th argument is the value of the `i`-th
listed column for whatever visiting order.  Attributes `name="x"`, `age=7` in
that order give the statement of the running example with arguments `["x", 7]`. -/
theorem Insert_renders :
    (∀ (r : Repo) (attrs : G),
      (r.insertStmt attrs).1 =
          "INSERT INTO `" ++ r.tbl ++ "`("
            ++ Join (attrs.map (fun kv => "`" ++ kv.1 ++ "`")) ","
            ++ ") VALUES(" ++ Join (List.replicate attrs.length "?") "," ++ ")"
      ∧ placeholders (Join (List.replicate attrs.length "?") ",") = attrs.length
      ∧ (r.insertStmt attrs).2 = attrs.map Prod.snd
      ∧ (∀ (i : Nat) (k : String) (v : Value), attrs[i]? = some (k, v) →
          (attrs.map (fun kv => "`" ++ kv.1 ++ "`"))[i]? = some ("`" ++ k ++ "`")
          ∧ (r.insertStmt attrs).2[i]? = some v)
      ∧ ∀ exec : Exec, r.Insert exec attrs =
          match exec (r.insertStmt attrs).1 (r.insertStmt attrs).2 with
          | .error err => .error err
          | .ok ret => ret.LastInsertId)
    ∧ (NewRepo true "t").insertStmt [("name", Value.str "x"), ("age", Value.int 7)]
        = ("INSERT INTO `t`(`name`,`age`) VALUES(?,?)", [Value.str "x", Value.int 7]) := by
  refine ⟨fun r attrs => ?_, by decide⟩
  have hs : r.insertStmt attrs =
      ("INSERT INTO `" ++ r.tbl ++ "`("
          ++ Join (attrs.map (fun kv => "`" ++ kv.1 ++ "`")) ","
          ++ ") VALUES(" ++ Join (List.replicate attrs.length "?") "," ++ ")",
        attrs.map Prod.snd) := by
    simp [-String.reduceAppend, Repo.insertStmt, insertLoop_eq]
  refine ⟨by rw [hs], placeholders_Join_qms _, by rw [hs], fun i k v h => ?_, fun exec => rfl⟩
  rw [hs]
  simp [List.getElem?_map, h]

/-- A witness of C5: the second visited attribute `age=7` is the second column
and the second argument. -/
theorem Insert_renders_witness :
    ([("name", Value.str "x"), ("age", Value.int 7)] : G)[1]? = some ("age", Value.int 7)
    ∧ ((NewRepo true "t").insertStmt [("name", Value.str "x"), ("age", Value.int 7)]).2[1]?
        = some (Value.int 7) :=
  ⟨by decide,
    ((Insert_renders.1 (NewRepo true "t") [("name", Value.str "x"), ("age", Value.int 7)]).2.2.2.1
      1 "age" (Value.int 7) (by decide)).2⟩

/-- C6: `Delete` calls the driver with the text `DELETE FROM <table>` followed by
the WHERE clause iff the predicate is non-empty and ` LIMIT ?` iff `limit > 0`,
and with the predicate arguments followed by the limit iff `limit > 0`;
ordering, offset and projection play no part; with no predicate and no positive
limit the text is exactly `DELETE FROM <table>`. -/
theorem Delete_renders (r : Repo) :
    r.deleteStmt.1 =
        "DELETE FROM `" ++ r.tbl ++ "`"
          ++ (if r.where_ ≠ "" then " WHERE " ++ r.where_ else "")
          ++ (if r.limit > 0 then " LIMIT ?" else "")
    ∧ r.deleteStmt.2.args = r.args ++ (if r.limit > 0 then [Value.int r.limit] else [])
    ∧ (∀ exec : Exec, (r.Delete exec).2 =
        match exec r.deleteStmt.1 r.deleteStmt.2.args with
        | .error err => .error err
        | .ok ret => ret.RowsAffected)
    ∧ (∀ (orderBy cols : String) (offset : Int),
        (Repo.deleteStmt { r with orderBy := orderBy, cols := cols, offset := offset }).1
            = r.deleteStmt.1
        ∧ (Repo.deleteStmt { r with orderBy := orderBy, cols := cols, offset := offset }).2.args
            = r.deleteStmt.2.args)
    ∧ (r.where_ = "" → r.limit ≤ 0 →
        r.deleteStmt.1 = "DELETE FROM `" ++ r.tbl ++ "`" ∧ r.deleteStmt.2.args = r.args) := by
  have hs : r.deleteStmt.1 =
      "DELETE FROM `" ++ r.tbl ++ "`"
        ++ (if r.where_ ≠ "" then " WHERE " ++ r.where_ else "")
        ++ (if r.limit > 0 then " LIMIT ?" else "") := by
    by_cases hw : r.where_ = "" <;> by_cases hl : r.limit > 0 <;>
      simp [-String.reduceAppend, Repo.deleteStmt, hw, hl, String.append_assoc]
  have ha : r.deleteStmt.2.args
      = r.args ++ (if r.limit > 0 then [Value.int r.limit] else []) := by
    by_cases hl : r.limit > 0 <;> simp [Repo.deleteStmt, hl]
  refine ⟨hs, ha, fun exec => ?_, fun orderBy cols offset => ?_, fun hw hl => ?_⟩
  · simp only [Repo.Delete]
    cases exec r.deleteStmt.1 r.deleteStmt.2.args <;> rfl
  · by_cases hw : r.where_ = "" <;> by_cases hl : r.limit > 0 <;>
      simp [Repo.deleteStmt, hw, hl]
  · have hl' : ¬ r.limit > 0 := by omega
    rw [hs, ha]
    simp [hw, hl']

/-- A witness of C6: a fresh builder on table `users` with no predicate and no
limit deletes with the bare statement and no arguments. -/
theorem Delete_renders_witness :
    (NewRepo true "users").where_ = "" ∧ (NewRepo true "users").limit ≤ 0
    ∧ (NewRepo true "users").deleteStmt.1 = "DELETE FROM `users`"
    ∧ (NewRepo true "users").deleteStmt.2.args = [] :=
  ⟨by decide, by decide,
    ((Delete_renders (NewRepo true "users")).2.2.2.2 (by decide) (by decide)).1,
    ((Delete_renders (NewRepo true "users")).2.2.2.2 (by decide) (by decide)).2⟩

/-! ## Registry: `Register` and `Tag2field` -/

/-- C8 (as stated, refuted): a tagged field of a registered prototype need not
be what `Tag2field` returns.  When two fields of the prototype carry the same
tag the later one wins, and when a later prototype of the same call has the same
type identity its mapping replaces the earlier one. -/
theorem Tag2field_registered_counterexample :
    (∃ f ∈ dupTagProto.fields, f.Tag ≠ ""
        ∧ (New.Register [dupTagProto]).Tag2field dupTagProto.typ f.Tag ≠ f.Name)
    ∧ (New.Register [dupTagProto]).Tag2field "*main.T" "x" = "B"
    ∧ (∃ p ∈ [userA, userB], ∃ f ∈ p.fields, f.Tag ≠ ""
        ∧ (New.Register [userA, userB]).Tag2field p.typ f.Tag ≠ f.Name)
    ∧ (New.Register [userA, userB]).Tag2field "*model.User" "name" = "Name" := by
  refine ⟨⟨{ Name := "A", Tag := "x" }, by decide, by decide, by decide⟩, by decide,
    ⟨userA, by decide, { Name := "FullName", Tag := "name" }, by decide, by decide,
      by decide⟩, by decide⟩

/-- C8 (amended): for a prototype `p` passed to `Register` and a field `f` of
it with a non-empty tag, if no later field of `p` carries the same tag and no
later prototype of the call has the type identity of `p`, then `Tag2field`
called afterwards with the type of `p` and the tag of `f` returns the
identifier of `f`. -/
theorem Tag2field_registered (o : Orm) (vpre vpost : List Prototype) (p : Prototype)
    (pre post : List StructField) (f : StructField)
    (hfields : p.fields = pre ++ f :: post) (htag : f.Tag ≠ "")
    (hlast : ∀ g ∈ post, g.Tag ≠ f.Tag) (hplast : ∀ q ∈ vpost, q.typ ≠ p.typ) :
    (o.Register (vpre ++ p :: vpost)).Tag2field p.typ f.Tag = f.Name := by
  have hm := Register_last o vpre vpost p hplast
  have hf := registerFields_last pre post f [] htag hlast
  rw [← hfields] at hf
  simp only [Orm.Tag2field, hm, hf]

/-- A witness of the amended C8: registering `userA` then an unrelated prototype
resolves the tag `name` of `*model.User` to `FullName`. -/
theorem Tag2field_registered_witness :
    userA.fields = [] ++ { Name := "FullName", Tag := "name" } :: [{ Name := "Age", Tag := "" }]
    ∧ (New.Register ([] ++ userA :: [dupTagProto])).Tag2field userA.typ "name" = "FullName" :=
  ⟨by decide,
    Tag2field_registered New [] [dupTagProto] userA [] [{ Name := "Age", Tag := "" }]
      { Name := "FullName", Tag := "name" } (by decide) (by decide) (by decide) (by decide)⟩

/-- C9: when the type has no registered mapping at all, or its mapping has no
entry for the column, `Tag2field` returns `snakeToUpperCamel` of the column. -/
theorem Tag2field_fallback (o : Orm) (typ key : String)
    (h : GoMap.get? o.mappings typ = none
      ∨ ∃ m, GoMap.get? o.mappings typ = some m ∧ GoMap.get? m key = none) :
    o.Tag2field typ key = snakeToUpperCamel key := by
  rcases h with h | ⟨m, hm, hk⟩
  · simp only [Orm.Tag2field, h]
  · simp only [Orm.Tag2field, hm, hk]

/-- A witness of C9, second case: `userA` is registered but its field `Age` is
untagged, so the column `age` has no entry and resolves to `Age` by naming. -/
theorem Tag2field_fallback_witness :
    (∃ m, GoMap.get? (New.Register [userA]).mappings "*model.User" = some m
        ∧ GoMap.get? m "age" = none)
    ∧ (New.Register [userA]).Tag2field "*model.User" "age" = snakeToUpperCamel "age"
    ∧ snakeToUpperCamel "age" = "Age" :=
  ⟨⟨[("name", "FullName")], by decide, by decide⟩,
    Tag2field_fallback (New.Register [userA]) "*model.User" "age"
      (Or.inr ⟨[("name", "FullName")], by decide, by decide⟩),
    by decide⟩

/-- C10: registering `B` after `A` under the same type identity, in the same
call or in a later one, replaces the mapping: it becomes the one `B` alone produces on an empty registry, its entries
are exactly the tagged fields of `B` (the last field winning a shared tag), and
a tag that no field of `B` carries resolves by `snakeToUpperCamel`, whatever `A`
declared. -/
theorem Register_overwrites (o : Orm) (A B : Prototype) (hty : B.typ = A.typ) :
    o.Register [A, B] = (o.Register [A]).Register [B]
    ∧ GoMap.get? ((o.Register [A]).Register [B]).mappings A.typ
        = some (registerFields B.fields [])
    ∧ GoMap.get? ((o.Register [A]).Register [B]).mappings A.typ
        = GoMap.get? (New.Register [B]).mappings B.typ
    ∧ (∀ tag name : String,
        GoMap.get? (registerFields B.fields []) tag = some name ↔
          tag ≠ "" ∧ ∃ pre f post, B.fields = pre ++ f :: post ∧ f.Tag = tag ∧ f.Name = name
            ∧ ∀ g ∈ post, g.Tag ≠ tag)
    ∧ (∀ tag : String, (∀ g ∈ B.fields, g.Tag ≠ tag) →
        ((o.Register [A]).Register [B]).Tag2field A.typ tag = snakeToUpperCamel tag) := by
  have hm : GoMap.get? ((o.Register [A]).Register [B]).mappings A.typ
      = some (registerFields B.fields []) := by
    have := Register_last (o.Register [A]) [] [] B (fun q hq => by cases hq)
    rw [hty] at this
    exact this
  have hn : GoMap.get? (New.Register [B]).mappings B.typ
      = some (registerFields B.fields []) :=
    Register_last New [] [] B (fun q hq => by cases hq)
  refine ⟨rfl, hm, by rw [hm, hn], fun tag name => registerFields_get?_iff B.fields tag name,
    fun tag htag => ?_⟩
  have hk : GoMap.get? (registerFields B.fields []) tag = none := by
    rw [registerFields_skip B.fields [] tag (fun g hg => Or.inr (htag g hg))]
    rfl
  simp only [Orm.Tag2field, hm, hk]

/-- A witness of C10: after `userA` alone the tag `name` resolves to `FullName`;
after `userB` is registered under the same identity it resolves by naming to
`Name`, and the mapping holds only the entry of `userB`. -/
theorem Register_overwrites_witness :
    userB.typ = userA.typ
    ∧ (New.Register [userA]).Tag2field userA.typ "name" = "FullName"
    ∧ (∀ g ∈ userB.fields, g.Tag ≠ "name")
    ∧ ((New.Register [userA]).Register [userB]).Tag2field userA.typ "name"
        = snakeToUpperCamel "name"
    ∧ snakeToUpperCamel "name" = "Name"
    ∧ GoMap.get? ((New.Register [userA]).Register [userB]).mappings userA.typ
        = some [("nick", "Nick")] :=
  ⟨by decide, by decide, by decide,
    (Register_overwrites New userA userB (by decide)).2.2.2.2 "name" (by decide),
    by decide, by decide⟩

/-! ## Naming fallback: `snakeToUpperCamel` -/

theorem lower_toNat (c : Char) : (c ≥ 'a' ∧ c ≤ 'z') ↔ (97 ≤ c.toNat ∧ c.toNat ≤ 122) := by
  constructor
  · rintro ⟨h1, h2⟩
    exact ⟨h1, h2⟩
  · rintro ⟨h1, h2⟩
    exact ⟨h1, h2⟩

theorem lower_toUpper (c : Char) (h : c ≥ 'a' ∧ c ≤ 'z') :
    Char.ofNat (c.toNat - 32) = c.toUpper := by
  have h' := (lower_toNat c).mp h
  simp [Char.toUpper, h']

theorem splitChars_ne_nil (sep : Char) (s : List Char) :
    ∃ seg rest, splitChars sep s = seg :: rest := by
  cases s with
  | nil => exact ⟨[], [], rfl⟩
  | cons c cs =>
    by_cases h : c = sep
    · exact ⟨[], splitChars sep cs, by simp [splitChars, h]⟩
    · cases hs : splitChars sep cs with
      | nil => exact ⟨[c], [], by simp [splitChars, h, hs]⟩
      | cons seg rest => exact ⟨c :: seg, rest, by simp [splitChars, h, hs]⟩

theorem splitChars_cons_ne (sep c : Char) (cs seg : List Char) (rest : List (List Char))
    (h : c ≠ sep) (hs : splitChars sep cs = seg :: rest) :
    splitChars sep (c :: cs) = (c :: seg) :: rest := by
  simp [splitChars, h, hs]

/-- The loop of `snakeToUpperCamel` in terms of segments: the segment under way
is copied as it is once its capital is written (`first = false`), every later
segment gets its first lowercase letter upper-cased. -/
theorem snakeToUpperCamelLoop_segments (s : List Char) (first : Bool) (buf seg : List Char)
    (rest : List (List Char)) (hs : splitChars '_' s = seg :: rest) :
    snakeToUpperCamelLoop s first buf =
      buf ++ (if first = true then capFirstLower seg else seg) ++ rest.flatMap capFirstLower := by
  induction s generalizing first buf seg rest with
  | nil =>
    simp only [splitChars, List.cons.injEq] at hs
    obtain ⟨h1, h2⟩ := hs
    subst h1 h2
    cases first <;> simp [snakeToUpperCamelLoop, capFirstLower]
  | cons c cs ih =>
    obtain ⟨seg', rest', hcs⟩ := splitChars_ne_nil '_' cs
    by_cases hu : c = '_'
    · have hsplit : splitChars '_' (c :: cs) = [] :: (seg' :: rest') := by
        simp [splitChars, hu, hcs]
      rw [hsplit] at hs
      simp only [List.cons.injEq] at hs
      obtain ⟨h1, h2⟩ := hs
      subst h1 h2
      have hl : ¬ (c ≥ 'a' ∧ c ≤ 'z' ∧ first = true) := by
        rw [hu]
        intro h
        exact absurd h.1 (by decide)
      rw [snakeToUpperCamelLoop, if_neg hl, if_pos hu, ih true buf seg' rest' hcs]
      cases first <;> simp [capFirstLower, List.flatMap_cons]
    · rw [splitChars_cons_ne '_' c cs seg' rest' hu hcs] at hs
      simp only [List.cons.injEq] at hs
      obtain ⟨h1, h2⟩ := hs
      subst h1 h2
      by_cases hl : c ≥ 'a' ∧ c ≤ 'z'
      · cases first with
        | true =>
          have hl' : c ≥ 'a' ∧ c ≤ 'z' ∧ true = true := ⟨hl.1, hl.2, rfl⟩
          rw [snakeToUpperCamelLoop, if_pos hl', ih false _ seg' rest' hcs]
          simp [capFirstLower, hl, lower_toUpper c hl]
        | false =>
          have hl' : ¬ (c ≥ 'a' ∧ c ≤ 'z' ∧ false = true) := by simp
          rw [snakeToUpperCamelLoop, if_neg hl', if_neg hu, ih false _ seg' rest' hcs]
          simp
      · have hl' : ¬ (c ≥ 'a' ∧ c ≤ 'z' ∧ first = true) := fun h => hl ⟨h.1, h.2.1⟩
        rw [snakeToUpperCamelLoop, if_neg hl', if_neg hu, ih first _ seg' rest' hcs]
        cases first <;> simp [capFirstLower, hl]

/-- The function `snakeToUpperCamel` upper-cases the first lowercase letter of
every `_`-separated segment and drops the delimiters. -/
theorem snakeToUpperCamel_segments (s : String) :
    snakeToUpperCamel s = String.mk ((splitChars '_' s.data).flatMap capFirstLower) := by
  obtain ⟨seg, rest, hs⟩ := splitChars_ne_nil '_' s.data
  simp [snakeToUpperCamel, snakeToUpperCamelLoop_segments s.data true [] seg rest hs, hs]

theorem mem_splitChars (sep : Char) (s seg : List Char) (c : Char)
    (hseg : seg ∈ splitChars sep s) (hc : c ∈ seg) : c ∈ s ∧ c ≠ sep := by
  induction s generalizing seg with
  | nil =>
    simp only [splitChars, List.mem_singleton] at hseg
    subst hseg
    cases hc
  | cons a as ih =>
    obtain ⟨seg', rest', has⟩ := splitChars_ne_nil sep as
    by_cases h : a = sep
    · have hsplit : splitChars sep (a :: as) = [] :: splitChars sep as := by
        simp [splitChars, h]
      rw [hsplit] at hseg
      rcases List.mem_cons.mp hseg with h0 | h1
      · subst h0
        cases hc
      · exact ⟨List.mem_cons_of_mem _ (ih seg h1 hc).1, (ih seg h1 hc).2⟩
    · rw [splitChars_cons_ne sep a as seg' rest' h has] at hseg
      rcases List.mem_cons.mp hseg with h0 | h1
      · subst h0
        rcases List.mem_cons.mp hc with hca | hcs
        · subst hca
          exact ⟨List.mem_cons_self _ _, h⟩
        · have := ih seg' (by rw [has]; exact List.mem_cons_self _ _) hcs
          exact ⟨List.mem_cons_of_mem _ this.1, this.2⟩
      · have := ih seg (by rw [has]; exact List.mem_cons_of_mem _ h1) hc
        exact ⟨List.mem_cons_of_mem _ this.1, this.2⟩

theorem flatMap_capFirstLower_lowercase (segs : List (List Char))
    (h : ∀ seg ∈ segs, ∀ c ∈ seg, c ≥ 'a' ∧ c ≤ 'z') :
    segs.flatMap capFirstLower
      = (segs.filter (fun seg => !seg.isEmpty)).flatMap capitalize := by
  induction segs with
  | nil => rfl
  | cons seg rest ih =>
    have hrest := ih (fun x hx => h x (List.mem_cons_of_mem _ hx))
    cases seg with
    | nil => simp [capFirstLower, hrest]
    | cons c cs =>
      have hc := h (c :: cs) (List.mem_cons_self _ _) c (List.mem_cons_self _ _)
      simp [capFirstLower, capitalize, hc, hrest]

theorem capFirstLower_split (pre post : List Char) (c : Char)
    (hpre : ∀ x ∈ pre, ¬ (x ≥ 'a' ∧ x ≤ 'z')) (hc : c ≥ 'a' ∧ c ≤ 'z') :
    capFirstLower (pre ++ c :: post) = pre ++ c.toUpper :: post := by
  induction pre with
  | nil => simp [capFirstLower, hc]
  | cons a as ih =>
    have ha := hpre a (List.mem_cons_self _ _)
    have := ih (fun x hx => hpre x (List.mem_cons_of_mem _ hx))
    rw [List.cons_append, capFirstLower, if_neg ha, this, List.cons_append]

theorem capFirstLower_none (seg : List Char) (h : ∀ x ∈ seg, ¬ (x ≥ 'a' ∧ x ≤ 'z')) :
    capFirstLower seg = seg := by
  induction seg with
  | nil => rfl
  | cons a as ih =>
    have ha := h a (List.mem_cons_self _ _)
    simp only [capFirstLower, if_neg ha, ih (fun x hx => h x (List.mem_cons_of_mem _ hx))]

/-- C11: on a string made only of lowercase ASCII letters and `_`,
`snakeToUpperCamel` returns the non-empty `_`-separated segments, in order, each
with its first letter upper-cased and the rest unchanged; `user_name` gives
`UserName`, `id` gives `Id`, `a__b` gives `AB`, `_name` and `name_` give `Name`. -/
theorem snakeToUpperCamel_lowercase :
    (∀ s : String, (∀ c ∈ s.data, c = '_' ∨ (c ≥ 'a' ∧ c ≤ 'z')) →
      snakeToUpperCamel s = camelSegments s)
    ∧ snakeToUpperCamel "user_name" = "UserName"
    ∧ snakeToUpperCamel "id" = "Id"
    ∧ snakeToUpperCamel "a__b" = "AB"
    ∧ snakeToUpperCamel "_name" = "Name"
    ∧ snakeToUpperCamel "name_" = "Name" := by
  refine ⟨fun s h => ?_, by decide, by decide, by decide, by decide, by decide⟩
  rw [snakeToUpperCamel_segments, camelSegments, flatMap_capFirstLower_lowercase]
  intro seg hseg c hc
  obtain ⟨hmem, hne⟩ := mem_splitChars '_' s.data seg c hseg hc
  rcases h c hmem with h1 | h2
  · exact absurd h1 hne
  · exact h2

/-- A witness of C11: `user_name` is made of lowercase letters and `_`, and its
segments `user`, `name` give `UserName`. -/
theorem snakeToUpperCamel_lowercase_witness :
    (∀ c ∈ "user_name".data, c = '_' ∨ (c ≥ 'a' ∧ c ≤ 'z'))
    ∧ snakeToUpperCamel "user_name" = camelSegments "user_name"
    ∧ camelSegments "user_name" = "UserName" :=
  ⟨by decide, snakeToUpperCamel_lowercase.1 "user_name" (by decide), by decide⟩

/-- C12 (as stated, refuted): on the ASCII string `Abc` the character that is
upper-cased is `b`, not the first letter `A` of the segment, so a letter after
the first letter is not copied unchanged. -/
theorem snakeToUpperCamel_first_letter_counterexample :
    (∀ c ∈ "Abc".data, c.toNat < 128)
    ∧ snakeToUpperCamel "Abc" = "ABc"
    ∧ camelFirstLetter "Abc" = "Abc"
    ∧ snakeToUpperCamel "Abc" ≠ camelFirstLetter "Abc" := by
  decide

/-- C12 (amended): `snakeToUpperCamel` upper-cases at most one character per
`_`-separated segment, and that character is the first lowercase letter
(`a`..`z`) of the segment; every other non-delimiter character is copied
unchanged, and a segment without a lowercase letter is copied as it is. -/
theorem snakeToUpperCamel_first_lower :
    (∀ s : String,
      snakeToUpperCamel s = String.mk ((splitChars '_' s.data).flatMap capFirstLower))
    ∧ (∀ (pre post : List Char) (c : Char),
        (∀ x ∈ pre, ¬ (x ≥ 'a' ∧ x ≤ 'z')) → (c ≥ 'a' ∧ c ≤ 'z') →
          capFirstLower (pre ++ c :: post) = pre ++ c.toUpper :: post)
    ∧ (∀ seg : List Char, (∀ x ∈ seg, ¬ (x ≥ 'a' ∧ x ≤ 'z')) → capFirstLower seg = seg) :=
  ⟨snakeToUpperCamel_segments, capFirstLower_split, capFirstLower_none⟩

/-- A witness of the amended C12: in the segment `1aB_` of `1aB__X9` the
character `a` is upper-cased after the digit, and the segment `X9` has no
lowercase letter. -/
theorem snakeToUpperCamel_first_lower_witness :
    (∀ x ∈ ['1'], ¬ (x ≥ 'a' ∧ x ≤ 'z')) ∧ ('a' ≥ 'a' ∧ 'a' ≤ 'z')
    ∧ capFirstLower (['1'] ++ 'a' :: ['B']) = ['1'] ++ 'a'.toUpper :: ['B']
    ∧ (∀ x ∈ ['X', '9'], ¬ (x ≥ 'a' ∧ x ≤ 'z'))
    ∧ capFirstLower ['X', '9'] = ['X', '9']
    ∧ snakeToUpperCamel "1aB__X9" = "1ABX9" :=
  ⟨by decide, by decide,
    snakeToUpperCamel_first_lower.2.1 ['1'] ['B'] 'a' (by decide) (by decide),
    by decide, snakeToUpperCamel_first_lower.2.2 ['X', '9'] (by decide), by decide⟩

theorem upper_ne_underscore (c : Char) (h : c ≥ 'a' ∧ c ≤ 'z') :
    Char.ofNat (c.toNat - 32) ≠ '_' := by
  obtain ⟨h1, h2⟩ := (lower_toNat c).mp h
  obtain ⟨n, hn⟩ : ∃ n, c.toNat = n := ⟨_, rfl⟩
  rw [hn] at h1 h2 ⊢
  interval_cases n <;> decide

theorem snakeToUpperCamelLoop_length (s : List Char) (first : Bool) (buf : List Char) :
    (snakeToUpperCamelLoop s first buf).length + s.count '_' = buf.length + s.length := by
  induction s generalizing first buf with
  | nil => simp [snakeToUpperCamelLoop]
  | cons c cs ih =>
    by_cases hl : c ≥ 'a' ∧ c ≤ 'z' ∧ first = true
    · have hu : c ≠ '_' := by
        intro hu
        rw [hu] at hl
        exact absurd hl.1 (by decide)
      rw [snakeToUpperCamelLoop, if_pos hl, List.count_cons_of_ne hu.symm, ih]
      simp
      omega
    · by_cases hu : c = '_'
      · rw [snakeToUpperCamelLoop, if_neg hl, if_pos hu, hu, List.count_cons_self]
        have := ih true buf
        simp only [List.length_cons]
        omega
      · rw [snakeToUpperCamelLoop, if_neg hl, if_neg hu, List.count_cons_of_ne (Ne.symm hu), ih]
        simp
        omega

theorem snakeToUpperCamelLoop_no_underscore (s : List Char) (first : Bool) (buf : List Char)
    (hbuf : '_' ∉ buf) : '_' ∉ snakeToUpperCamelLoop s first buf := by
  induction s generalizing first buf with
  | nil => simpa [snakeToUpperCamelLoop] using hbuf
  | cons c cs ih =>
    by_cases hl : c ≥ 'a' ∧ c ≤ 'z' ∧ first = true
    · rw [snakeToUpperCamelLoop, if_pos hl]
      apply ih
      have := upper_ne_underscore c ⟨hl.1, hl.2.1⟩
      simp [hbuf, this.symm]
    · by_cases hu : c = '_'
      · rw [snakeToUpperCamelLoop, if_neg hl, if_pos hu]
        exact ih true buf hbuf
      · rw [snakeToUpperCamelLoop, if_neg hl, if_neg hu]
        apply ih
        simp [hbuf, Ne.symm hu]

/-- C13: for every string `s` the output of `snakeToUpperCamel` contains no `_`
and its length is the length of `s` minus the number of `_` in `s`. -/
theorem snakeToUpperCamel_drops_delimiters (s : String) :
    '_' ∉ (snakeToUpperCamel s).data
    ∧ (snakeToUpperCamel s).length = s.length - s.data.count '_' := by
  refine ⟨snakeToUpperCamelLoop_no_underscore s.data true [] (by simp), ?_⟩
  have := snakeToUpperCamelLoop_length s.data true []
  simp only [snakeToUpperCamel, String.length, List.length_nil] at this ⊢
  omega

/-! ## Identifier lists: `I64Arr` after `I64s` -/

theorem formatDigits_acc (fuel u : Nat) (acc : List Char) :
    formatDigits fuel u acc = formatDigits fuel u [] ++ acc := by
  induction fuel generalizing u acc with
  | zero => simp [formatDigits]
  | succ fuel ih =>
    by_cases h : u ≥ 10
    · simp only [formatDigits, h, if_true]
      rw [ih (u / 10) (digitChar (u % 10) :: acc), ih (u / 10) [digitChar (u % 10)]]
      simp
    · simp [formatDigits, h]

theorem parseDigits_append (l r : List Char) (n : Nat) :
    parseDigits (l ++ r) n = (parseDigits l n).bind (parseDigits r) := by
  induction l generalizing n with
  | nil => simp [parseDigits]
  | cons c cs ih =>
    simp only [List.cons_append, parseDigits]
    split_ifs <;> simp [ih]

theorem digitChar_spec (d : Nat) (h : d < 10) :
    (digitChar d ≥ '0' ∧ digitChar d ≤ '9') ∧ (digitChar d).toNat - 48 = d
      ∧ digitChar d ≠ ',' ∧ digitChar d ≠ '+' ∧ digitChar d ≠ '-' := by
  interval_cases d <;> decide

theorem parseDigits_digit (n d : Nat) (hd : d < 10) (hn : n * 10 + d ≤ maxUint64) :
    parseDigits [digitChar d] n = some (n * 10 + d) := by
  obtain ⟨hr, hv, _⟩ := digitChar_spec d hd
  have h1 : ¬ n ≥ maxUint64 / 10 + 1 := by
    simp only [maxUint64] at hn ⊢
    omega
  have h2 : ¬ n * 10 + d > maxUint64 := by omega
  simp only [parseDigits, hr, and_self, if_true, h1, if_false, hv, h2]

theorem parseDigits_formatDigits (fuel u : Nat) (hf : u < fuel) (hu : u ≤ maxUint64) :
    parseDigits (formatDigits fuel u []) 0 = some u := by
  induction fuel generalizing u with
  | zero => omega
  | succ fuel ih =>
    by_cases h : u ≥ 10
    · simp only [formatDigits, h, if_true]
      rw [formatDigits_acc, parseDigits_append, ih (u / 10) (by omega) (by omega)]
      simp only [Option.some_bind]
      rw [parseDigits_digit (u / 10) (u % 10) (Nat.mod_lt _ (by decide)) (by omega)]
      congr 1
      omega
    · simp only [formatDigits, h, if_false]
      rw [parseDigits_digit 0 u (by omega) (by omega)]
      simp

theorem formatDigits_digits (fuel u : Nat) (acc : List Char) (c : Char)
    (hc : c ∈ formatDigits fuel u acc) : c ∈ acc ∨ ∃ d, d < 10 ∧ c = digitChar d := by
  induction fuel generalizing u acc with
  | zero => exact Or.inl (by simpa [formatDigits] using hc)
  | succ fuel ih =>
    by_cases h : u ≥ 10
    · simp only [formatDigits, h, if_true] at hc
      rcases ih (u / 10) _ hc with h1 | h2
      · rcases List.mem_cons.mp h1 with h0 | h0
        · exact Or.inr ⟨u % 10, Nat.mod_lt _ (by decide), h0⟩
        · exact Or.inl h0
      · exact Or.inr h2
    · simp only [formatDigits, h, if_false] at hc
      rcases List.mem_cons.mp hc with h0 | h0
      · exact Or.inr ⟨u, by omega, h0⟩
      · exact Or.inl h0

theorem formatDigits_ne_nil (fuel u : Nat) : formatDigits (fuel + 1) u [] ≠ [] := by
  by_cases h : u ≥ 10
  · simp only [formatDigits, h, if_true]
    rw [formatDigits_acc]
    simp
  · simp [formatDigits, h]

theorem ParseInt_FormatInt (x : Int) (hlo : -(2 : Int) ^ 63 ≤ x) (hhi : x < (2 : Int) ^ 63) :
    ParseInt (FormatInt x) = some x := by
  obtain ⟨c, cs, hD⟩ : ∃ c cs, formatDigits (x.natAbs + 1) x.natAbs [] = c :: cs := by
    cases h : formatDigits (x.natAbs + 1) x.natAbs [] with
    | nil => exact absurd h (formatDigits_ne_nil _ _)
    | cons c cs => exact ⟨c, cs, rfl⟩
  have hc : c ≠ '+' ∧ c ≠ '-' := by
    have hmem : c ∈ formatDigits (x.natAbs + 1) x.natAbs [] := by
      rw [hD]
      exact List.mem_cons_self _ _
    rcases formatDigits_digits _ _ _ _ hmem with h | ⟨d, hd, rfl⟩
    · cases h
    · exact ⟨(digitChar_spec d hd).2.2.2.1, (digitChar_spec d hd).2.2.2.2⟩
  have hmax : x.natAbs ≤ maxUint64 := by
    simp only [maxUint64]
    omega
  have hparse : parseDigits (c :: cs) 0 = some x.natAbs := by
    rw [← hD]
    exact parseDigits_formatDigits _ _ (by omega) hmax
  by_cases hneg : x < 0
  · have hun : ¬ x.natAbs > 2 ^ 63 := by omega
    have hx : -(x.natAbs : Int) = x := by omega
    simp [FormatInt, hneg, ParseInt, ParseUint, hD, hparse, hun, hx]
    exact ⟨by omega, by rw [abs_of_neg hneg]; omega⟩
  · have hun : ¬ x.natAbs ≥ 2 ^ 63 := by omega
    have hx : (x.natAbs : Int) = x := by omega
    simp [FormatInt, hneg, ParseInt, ParseUint, hD, hparse, hun, hx, hc.1, hc.2]
    omega

theorem FormatInt_no_comma (x : Int) : ',' ∉ (FormatInt x).data ∧ FormatInt x ≠ "" := by
  have hdig : ',' ∉ formatDigits (x.natAbs + 1) x.natAbs [] := by
    intro hmem
    rcases formatDigits_digits _ _ _ _ hmem with h | ⟨d, hd, h⟩
    · cases h
    · exact (digitChar_spec d hd).2.2.1 h.symm
  have hne := formatDigits_ne_nil x.natAbs x.natAbs
  by_cases hneg : x < 0
  · refine ⟨?_, ?_⟩
    · simp only [FormatInt, hneg, if_true, List.mem_cons, not_or]
      exact ⟨by decide, hdig⟩
    · intro h
      have := congrArg String.data h
      simp [FormatInt, hneg] at this
  · refine ⟨?_, ?_⟩
    · simpa only [FormatInt, hneg, if_false] using hdig
    · intro h
      have := congrArg String.data h
      simp only [FormatInt, hneg, if_false] at this
      exact hne this

theorem splitChars_no_sep (sep : Char) (l : List Char) (h : sep ∉ l) :
    splitChars sep l = [l] := by
  induction l with
  | nil => rfl
  | cons c cs ih =>
    have hc : c ≠ sep := fun hc => h (hc ▸ List.mem_cons_self _ _)
    have hcs : sep ∉ cs := fun hm => h (List.mem_cons_of_mem _ hm)
    exact splitChars_cons_ne sep c cs cs [] hc (ih hcs)

theorem splitChars_append_sep (sep : Char) (l r : List Char) (h : sep ∉ l) :
    splitChars sep (l ++ sep :: r) = l :: splitChars sep r := by
  induction l with
  | nil => simp [splitChars]
  | cons c cs ih =>
    have hc : c ≠ sep := fun hc => h (hc ▸ List.mem_cons_self _ _)
    have hcs : sep ∉ cs := fun hm => h (List.mem_cons_of_mem _ hm)
    exact splitChars_cons_ne sep c _ cs _ hc (ih hcs)

theorem Split_Join (strs : List String) (hne : strs ≠ [])
    (h : ∀ a ∈ strs, ',' ∉ a.data) : Split (Join strs ",") ',' = strs := by
  induction strs with
  | nil => exact absurd rfl hne
  | cons a rest ih =>
    have ha := h a (List.mem_cons_self _ _)
    cases rest with
    | nil => simp [Split, Join, splitChars_no_sep ',' a.data ha]
    | cons b rest2 =>
      have hrest := ih (by simp) (fun x hx => h x (List.mem_cons_of_mem _ hx))
      have hd : (Join (a :: b :: rest2) ",").data
          = a.data ++ ',' :: (Join (b :: rest2) ",").data := by
        simp [Join, String.data_append]
      simp only [Split] at hrest ⊢
      rw [hd, splitChars_append_sep ',' _ _ ha, List.map_cons, hrest]

theorem I64ArrLoop_FormatInt (xs ret : List Int)
    (h : ∀ x ∈ xs, -(2 : Int) ^ 63 ≤ x ∧ x < (2 : Int) ^ 63) :
    I64ArrLoop (xs.map FormatInt) ret = ret ++ xs := by
  induction xs generalizing ret with
  | nil => simp [I64ArrLoop]
  | cons x rest ih =>
    have hx := h x (List.mem_cons_self _ _)
    simp only [List.map_cons, I64ArrLoop, if_neg (FormatInt_no_comma x).2,
      ParseInt_FormatInt x hx.1 hx.2]
    rw [ih _ (fun y hy => h y (List.mem_cons_of_mem _ hy))]
    simp

theorem Join_ne_empty (a : String) (rest : List String) (ha : a ≠ "") :
    Join (a :: rest) "," ≠ "" := by
  have had : a.data ≠ [] := fun hd => ha (String.ext hd)
  intro h
  have hd := congrArg String.data h
  cases rest with
  | nil => exact had (by simpa [Join] using hd)
  | cons b rest2 =>
    simp only [Join, String.data_append] at hd
    have := congrArg List.length hd
    simp at this

/-- C20: `I64Arr` undoes `I64s`: for every list `xs` of signed 64-bit integers,
the empty list and negative values included, `I64Arr (I64s xs) = xs`. -/
theorem I64Arr_I64s (xs : List Int)
    (h : ∀ x ∈ xs, -(2 : Int) ^ 63 ≤ x ∧ x < (2 : Int) ^ 63) :
    I64Arr (I64s xs) = xs := by
  cases xs with
  | nil => decide
  | cons x rest =>
    have hne : I64s (x :: rest) ≠ "" := Join_ne_empty _ _ (FormatInt_no_comma x).2
    have hsplit : Split (I64s (x :: rest)) ',' = (x :: rest).map FormatInt :=
      Split_Join _ (by simp) (fun a ha => by
        obtain ⟨y, _, rfl⟩ := List.mem_map.mp ha
        exact (FormatInt_no_comma y).1)
    rw [I64Arr, if_neg hne, hsplit, I64ArrLoop_FormatInt _ _ h]
    simp

/-- A witness of C20: the extreme values of `int64`, zero and a negative value
survive the round trip through `"-9223372036854775808,0,-7,9223372036854775807"`. -/
theorem I64Arr_I64s_witness :
    (∀ x ∈ [-9223372036854775808, 0, -7, 9223372036854775807],
        -(2 : Int) ^ 63 ≤ x ∧ x < (2 : Int) ^ 63)
    ∧ I64s [-9223372036854775808, 0, -7, 9223372036854775807]
        = "-9223372036854775808,0,-7,9223372036854775807"
    ∧ I64Arr (I64s [-9223372036854775808, 0, -7, 9223372036854775807])
        = [-9223372036854775808, 0, -7, 9223372036854775807] :=
  ⟨by decide, by decide,
    I64Arr_I64s [-9223372036854775808, 0, -7, 9223372036854775807] (by decide)⟩

/-! ## Scan engine: coercion -/

/-- An unexported field is never written: `setModelValue` panics on it in
every case of its switch, and leaves it alone for the kinds without a case. -/
theorem setModelValue_unexported (scanners : Scanners) (driverValue : Value)
    (typ : GoType) (val : GoVal) :
    setModelValue scanners driverValue { typ := typ, val := val, exported := false } =
      if typ.Kind ∈ [Kind.Uintptr, Kind.Complex64, Kind.Complex128, Kind.Array,
          Kind.Chan, Kind.Func, Kind.Interface, Kind.Map, Kind.UnsafePointer]
      then Res.ok { typ := typ, val := val, exported := false }
      else Res.panic := by
  cases typ <;> cases driverValue <;>
    simp [setModelValue, setPtrValue, GoType.Kind, GoType.Elem, mustBeExported, parseBool,
      elemBool, elemInt, elemUint, elemKind, elemFloat, elemBytes, typeElemKind]

/-- C15 (as stated, refuted): a boolean field and a signed integer value are
not a case of the coercion matrix, yet `setModelValue` does not drop the value:
`reflect.Value.Bool` panics on it.  The same holds for a signed integer field
and a byte sequence, and for an unexported plain struct field, where
`Interface()` panics. -/
theorem setModelValue_mismatch_counterexample :
    listedKind (Value.int64 1) = true
    ∧ coercionMatrix noScanners GoType.bool (Value.int64 1) = false
    ∧ setModelValue noScanners (Value.int64 1) { typ := GoType.bool, val := GoVal.bool false }
        = Res.panic
    ∧ listedKind (Value.bytes [49]) = true
    ∧ coercionMatrix noScanners GoType.int64 (Value.bytes [49]) = false
    ∧ setModelValue noScanners (Value.bytes [49]) { typ := GoType.int64, val := GoVal.int 0 }
        = Res.panic
    ∧ coercionMatrix noScanners (GoType.struct "model.Profile") (Value.int64 1) = false
    ∧ setModelValue noScanners (Value.int64 1)
        { typ := GoType.struct "model.Profile", val := GoVal.other 3, exported := false }
        = Res.panic := by
  decide

/-- C15 (amended): for a destination field whose kind has no case in
`setModelValue` (uintptr, complex, array, chan, func, interface, map, unsafe
pointer), exported or not, and for an exported field that is a struct other
than `time.Time` without a scan capability, every opaque value is outside the
coercion matrix and is silently dropped: `setModelValue` returns no error, does
not panic and leaves the field unchanged. -/
theorem setModelValue_no_case (scanners : Scanners) (driverValue : Value)
    (fieldValue : FieldValue)
    (h : fieldValue.typ.Kind ∈ [Kind.Uintptr, Kind.Complex64, Kind.Complex128, Kind.Array,
          Kind.Chan, Kind.Func, Kind.Interface, Kind.Map, Kind.UnsafePointer]
      ∨ (fieldValue.exported = true
          ∧ ∃ name, fieldValue.typ = GoType.struct name ∧ name ≠ "time.Time"
            ∧ scanners name = none)) :
    setModelValue scanners driverValue fieldValue = Res.ok fieldValue
    ∧ coercionMatrix scanners fieldValue.typ driverValue = false := by
  obtain ⟨typ, val, exported⟩ := fieldValue
  rcases h with h | ⟨hexp, name, hname, hne, hsc⟩
  · cases typ <;> simp [GoType.Kind] at h <;>
      simp [setModelValue, GoType.Kind, coercionMatrix]
  · simp only at hname hexp
    subst hname hexp
    simp [setModelValue, GoType.Kind, coercionMatrix, hne, hsc, mustBeExported]

/-- A witness of the amended C15: a map field, exported or not, and an exported
plain struct field drop a signed integer value. -/
theorem setModelValue_no_case_witness :
    GoType.Kind (GoType.map GoType.string GoType.int) ∈ [Kind.Uintptr, Kind.Complex64,
      Kind.Complex128, Kind.Array, Kind.Chan, Kind.Func, Kind.Interface, Kind.Map,
      Kind.UnsafePointer]
    ∧ setModelValue noScanners (Value.int64 1)
        { typ := GoType.map GoType.string GoType.int, val := GoVal.nil }
        = Res.ok { typ := GoType.map GoType.string GoType.int, val := GoVal.nil }
    ∧ setModelValue noScanners (Value.int64 1)
        { typ := GoType.map GoType.string GoType.int, val := GoVal.nil, exported := false }
        = Res.ok
          { typ := GoType.map GoType.string GoType.int, val := GoVal.nil, exported := false }
    ∧ setModelValue noScanners (Value.int64 1)
        { typ := GoType.struct "model.Profile", val := GoVal.other 3 }
        = Res.ok { typ := GoType.struct "model.Profile", val := GoVal.other 3 } :=
  ⟨by decide,
    (setModelValue_no_case noScanners (Value.int64 1)
      { typ := GoType.map GoType.string GoType.int, val := GoVal.nil }
      (Or.inl (by decide))).1,
    (setModelValue_no_case noScanners (Value.int64 1)
      { typ := GoType.map GoType.string GoType.int, val := GoVal.nil, exported := false }
      (Or.inl (by decide))).1,
    (setModelValue_no_case noScanners (Value.int64 1)
      { typ := GoType.struct "model.Profile", val := GoVal.other 3 }
      (Or.inr ⟨rfl, "model.Profile", rfl, by decide, rfl⟩)).1⟩

/-- C17 (defect): the guard of the slice case looks at the element kind of the
opaque value, not of the field.  A `[]string` field receiving a byte sequence
reaches `SetBytes`, which panics; a `[]int32` field receiving a signed integer
panics in `Type.Elem`; only a `[]byte` field receiving a byte sequence is
assigned. -/
theorem setModelValue_slice_guard :
    setModelValue noScanners (Value.bytes [97])
        { typ := GoType.slice GoType.string, val := GoVal.nil } = Res.panic
    ∧ setModelValue noScanners (Value.int64 1)
        { typ := GoType.slice GoType.int32, val := GoVal.nil } = Res.panic
    ∧ setModelValue noScanners (Value.bytes [97])
        { typ := GoType.slice GoType.uint8, val := GoVal.nil }
        = Res.ok { typ := GoType.slice GoType.uint8, val := GoVal.bytes [97] }
    ∧ setModelValue noScanners (Value.int64 1)
        { typ := GoType.slice GoType.uint8, val := GoVal.nil } = Res.panic := by
  decide

/-- The slice case in general: a slice field never comes out unchanged without a
panic; it is assigned when both the field and the opaque value are byte
sequences and panics otherwise. -/
theorem setModelValue_slice (scanners : Scanners) (driverValue : Value) (elem : GoType)
    (old : GoVal) :
    setModelValue scanners driverValue { typ := GoType.slice elem, val := old } =
      match driverValue with
      | Value.bytes b =>
        if elem.Kind = Kind.Uint8 then
          Res.ok { typ := GoType.slice elem, val := GoVal.bytes b }
        else Res.panic
      | _ => Res.panic := by
  cases driverValue <;>
    simp [setModelValue, GoType.Kind, typeElemKind, elemBytes, SetBytes, mustBeExported]
  split_ifs <;> simp

/-! ## Scan engine: rows -/

theorem FieldByName_storeField (fields : List (String × FieldValue)) (name name' : String)
    (fieldValue : FieldValue) :
    (FieldByName (storeField fields name fieldValue) name').isSome
      = (FieldByName fields name').isSome := by
  induction fields with
  | nil => rfl
  | cons e rest ih =>
    obtain ⟨n, f⟩ := e
    by_cases h : n = name
    · by_cases h' : n = name'
      · simp only [storeField, FieldByName, if_pos h, if_pos h', Option.isSome_some]
      · simp only [storeField, FieldByName, if_pos h, if_neg h']
    · by_cases h' : n = name'
      · simp only [storeField, FieldByName, if_neg h, if_pos h', Option.isSome_some]
      · simp only [storeField, FieldByName, if_neg h, if_neg h', ih]

theorem reachesField_storeField (o : Orm) (val : Record) (name : String)
    (fieldValue : FieldValue) (cell : String × Value) :
    reachesField o { val with fields := storeField val.fields name fieldValue } cell
      = reachesField o val cell := by
  simp only [reachesField, FieldByName_storeField]

/-- The columns that do not reach a field can be removed from the row. -/
theorem scanLoop_filter (scanners : Scanners) (o : Orm) (cells : List (String × Value))
    (val : Record) :
    scanLoop scanners o cells val
      = scanLoop scanners o (cells.filter (reachesField o val)) val := by
  induction cells generalizing val with
  | nil => rfl
  | cons c rest ih =>
    obtain ⟨key, value⟩ := c
    by_cases hnil : value = Value.nil
    · have hk : reachesField o val (key, value) = false := by simp [reachesField, hnil]
      rw [List.filter_cons_of_neg (by simp [hk]), ← ih val]
      simp only [scanLoop, hnil, if_true]
    · cases hf : FieldByName val.fields (o.Tag2field val.typ key) with
      | none =>
        have hk : reachesField o val (key, value) = false := by simp [reachesField, hf]
        rw [List.filter_cons_of_neg (by simp [hk]), ← ih val]
        simp only [scanLoop, hnil, if_false, hf]
      | some field =>
        have hk : reachesField o val (key, value) = true := by simp [reachesField, hnil, hf]
        rw [List.filter_cons_of_pos hk]
        simp only [scanLoop, hnil, if_false, hf]
        cases hs : setModelValue scanners value field with
        | ok field' =>
          simp only
          rw [ih]
          congr 2
          funext cell
          exact reachesField_storeField o val _ field' cell
        | fail field' err => rfl
        | panic => rfl

/-- C18: when the generic scan of a row succeeds, a column whose opaque value is
absent and a column whose resolved field name is not a field of the record
change neither the record nor the outcome: the row gives the same result as the
row without that column, wherever the column stands, and a row made only of such
columns returns the record unchanged with no error. -/
theorem scanRows_skips (scanners : Scanners) (o : Orm) (val : Record) (rows : Row)
    (hscan : rows.scanErr = none) :
    (∀ (pre post : List (String × Value)) (key : String) (value : Value),
        rows.cells = pre ++ (key, value) :: post →
        (value = Value.nil ∨ FieldByName val.fields (o.Tag2field val.typ key) = none) →
        scanRows scanners o val rows
          = scanRows scanners o val { cells := pre ++ post, scanErr := none })
    ∧ scanRows scanners o val rows
        = scanRows scanners o val
            { cells := rows.cells.filter (reachesField o val), scanErr := none }
    ∧ ((∀ cell ∈ rows.cells, cell.2 = Value.nil
          ∨ FieldByName val.fields (o.Tag2field val.typ cell.1) = none) →
        scanRows scanners o val rows = Res.ok val) := by
  have hrow : ∀ cells, scanRows scanners o val { cells := cells, scanErr := none }
      = scanLoop scanners o cells val := fun cells => rfl
  have hself : scanRows scanners o val rows = scanLoop scanners o rows.cells val := by
    simp only [scanRows, hscan]
  have hkeep : ∀ (key : String) (value : Value),
      (value = Value.nil ∨ FieldByName val.fields (o.Tag2field val.typ key) = none) →
      reachesField o val (key, value) = false := by
    intro key value h
    rcases h with h | h <;> simp [reachesField, h]
  refine ⟨fun pre post key value hcells h => ?_, ?_, fun h => ?_⟩
  · rw [hself, hrow, hcells, scanLoop_filter scanners o (pre ++ (key, value) :: post),
      scanLoop_filter scanners o (pre ++ post), List.filter_append, List.filter_append,
      List.filter_cons_of_neg (by simp [hkeep key value h])]
  · rw [hself, hrow, ← scanLoop_filter]
  · rw [hself, scanLoop_filter]
    have hnone : rows.cells.filter (reachesField o val) = [] := by
      rw [List.filter_eq_nil_iff]
      intro cell hcell
      simp [hkeep cell.1 cell.2 (h cell hcell)]
    rw [hnone]
    rfl

/-- A witness of C18 on `userRow`: the column `missing` (no such field) can be
removed, and so can the null `age`; the fields `Id` and `UserName` are filled,
`Age` keeps its zero value. -/
theorem scanRows_skips_witness :
    userRow.scanErr = none
    ∧ FieldByName userType.New.fields (New.Tag2field userType.New.typ "missing") = none
    ∧ scanRows noScanners New userType.New userRow
        = scanRows noScanners New userType.New
            { cells := [("id", Value.int64 3)]
                ++ [("user_name", Value.bytes [97, 98]), ("age", Value.nil)],
              scanErr := none }
    ∧ scanRows noScanners New userType.New userRow
        = Res.ok
          { typ := "*model.User",
            fields := [("Id", { typ := GoType.int64, val := GoVal.int 3 }),
              ("UserName", { typ := GoType.string, val := GoVal.string [97, 98] }),
              ("Age", { typ := GoType.uint8, val := GoVal.uint 0 })] } :=
  ⟨by decide, by decide,
    (scanRows_skips noScanners New userType.New userRow (by decide)).1
      [("id", Value.int64 3)] [("user_name", Value.bytes [97, 98]), ("age", Value.nil)]
      "missing" (Value.int64 1) (by decide) (Or.inr (by decide)),
    by decide⟩

theorem findsLoop_collects (scanners : Scanners) (o : Orm) (structType : StructType)
    (rows : List Row) (recs sliceValue : List Record)
    (h : List.Forall₂ (fun row rec => scanRows scanners o structType.New row = Res.ok rec)
      rows recs) :
    findsLoop scanners o structType rows sliceValue = Res.ok (sliceValue ++ recs) := by
  induction h generalizing sliceValue with
  | nil => simp [findsLoop]
  | cons hrow _ ih =>
    simp only [findsLoop, hrow]
    rw [ih]
    simp

/-- C19: when the cursor yields `N` rows and each of them scans without error
into a fresh zero-valued record, `Finds` on an empty destination returns no
error and leaves exactly those `N` records in cursor order; with no row the
destination stays empty. -/
theorem Finds_collects (scanners : Scanners) (o : Orm) (query : Query) (r : Repo)
    (structType : StructType) (rows : List Row) (recs : List Record)
    (hquery : (r.Rows query).2 = Except.ok rows)
    (hscan : List.Forall₂
      (fun row rec => scanRows scanners o structType.New row = Res.ok rec) rows recs) :
    (r.Finds scanners o query structType []).2 = Res.ok recs
    ∧ recs.length = rows.length
    ∧ (∀ (i : Nat) (row : Row), rows[i]? = some row →
        ∃ rec, recs[i]? = some rec ∧ scanRows scanners o structType.New row = Res.ok rec)
    ∧ (rows = [] → (r.Finds scanners o query structType []).2 = Res.ok []) := by
  have hfinds : (r.Finds scanners o query structType []).2
      = findsLoop scanners o structType rows [] := by
    simp only [Repo.Finds]
    cases hr : r.Rows query with
    | mk r' res =>
      rw [hr] at hquery
      simp only at hquery
      subst hquery
      rfl
  refine ⟨?_, hscan.length_eq.symm, fun i row hi => ?_, fun hrows => ?_⟩
  · rw [hfinds, findsLoop_collects scanners o structType rows recs [] hscan]
    simp
  · have hlt : i < rows.length := (List.getElem?_eq_some_iff.mp hi).1
    have hlt' : i < recs.length := by rw [← hscan.length_eq]; exact hlt
    refine ⟨recs[i], List.getElem?_eq_getElem hlt', ?_⟩
    have hget : rows[i] = row := (List.getElem?_eq_some_iff.mp hi).2
    rw [← hget]
    exact List.Forall₂.get hscan hlt hlt'
  · rw [hfinds, hrows]
    rfl

/-- A witness of C19: a cursor with the two rows `userRow`, `userRow2` fills the
destination with two records, in that order. -/
theorem Finds_collects_witness :
    ((NewRepo true "users").Rows twoRows).2 = Except.ok [userRow, userRow2]
    ∧ ((NewRepo true "users").Finds noScanners New twoRows userType []).2
        = Res.ok
          [{ typ := "*model.User",
             fields := [("Id", { typ := GoType.int64, val := GoVal.int 3 }),
               ("UserName", { typ := GoType.string, val := GoVal.string [97, 98] }),
               ("Age", { typ := GoType.uint8, val := GoVal.uint 0 })] },
           { typ := "*model.User",
             fields := [("Id", { typ := GoType.int64, val := GoVal.int 4 }),
               ("UserName", { typ := GoType.string, val := GoVal.string [] }),
               ("Age", { typ := GoType.uint8, val := GoVal.uint 30 })] }] :=
  ⟨rfl,
    (Finds_collects noScanners New twoRows (NewRepo true "users") userType
      [userRow, userRow2] _ rfl
      (List.Forall₂.cons (by decide) (List.Forall₂.cons (by decide) List.Forall₂.nil))).1⟩

end OrmModel
